import Mathlib

set_option maxRecDepth 4000
set_option linter.constructorNameAsVariable false

/-!
Verification of the Sudoku generator/solver core (sudoku_generator.py,
sudoku_solver.py).

Grids are 9×9 lists of lists of naturals, 0 meaning "empty".  In-place
mutation in the source is modelled by explicit state passing: every search
routine returns its result together with the final state of the grid it was
handed.  The implicit global random source is modelled by explicit
parameters: a digit-order function for the shuffled candidate list of
fill_grid_backtracking, and a coordinate list for the shuffled removal order
of generate.  Unbounded recursion is modelled with a fuel parameter; fuel 82
is enough for every 9×9 grid (one unit per filled cell plus the base case).
-/

/-- A grid is a list of rows, each a list of cell values (0 = empty). -/
abbrev Grid : Type := List (List Nat)

/-- Bounded universal quantifiers over Nat are decidable. -/
instance decBallLT (n : Nat) (P : Nat → Prop) [DecidablePred P] :
    Decidable (∀ x, x < n → P x) :=
  decidable_of_iff (∀ x ∈ List.range n, P x) (by simp [List.mem_range])

/-- Read cell (r, c); out-of-range reads give 0 (all source reads are made
at indices 0..8 of well-formed 9×9 grids, where this matches grid[r][c]). -/
def getCell (g : Grid) (r c : Nat) : Nat := (g.getD r []).getD c 0

/-- Write cell (r, c), modelling the statement grid[r][c] = v. -/
def setCell (g : Grid) (r c v : Nat) : Grid :=
  List.set g r ((g.getD r []).set c v)

/-- The digit list 1..9, modelling range(1, 10) and list(range(1, 10)). -/
def digits : List Nat := [1, 2, 3, 4, 5, 6, 7, 8, 9]

/-- The all-zero grid built by generate_full_grid. -/
def zeroGrid : Grid := List.replicate 9 (List.replicate 9 0)

/-- Well-formed shape: 9 rows of 9 cells each. -/
def wfGrid (g : Grid) : Prop :=
  List.length g = 9 ∧ ∀ row ∈ g, List.length row = 9

/-- All cell values lie in 0..9. -/
def valsLe9 (g : Grid) : Prop :=
  ∀ r, r < 9 → ∀ c, c < 9 → getCell g r c ≤ 9

instance (g : Grid) : Decidable (wfGrid g) := by
  unfold wfGrid
  infer_instance

instance (g : Grid) : Decidable (valsLe9 g) := by
  unfold valsLe9
  infer_instance

/-- sudoku_generator.is_valid: num may be placed at (row, col) iff it does
not occur in the row list, the column, or the 3×3 box. -/
def is_valid (g : Grid) (row col num : Nat) : Bool :=
  !(List.contains (g.getD row []) num)
  && (List.all (List.range 9) fun r => getCell g r col != num)
  && (List.all (List.range 3) fun i => List.all (List.range 3) fun j =>
       getCell g (row / 3 * 3 + i) (col / 3 * 3 + j) != num)

/-- Scan of one row: first zero at column index c or later. -/
def findEmptyInRow (g : Grid) (r : Nat) : List Nat → Option (Nat × Nat)
  | [] => none
  | c :: cs => if getCell g r c = 0 then some (r, c) else findEmptyInRow g r cs

/-- Scan rows r in the given list, columns 0..8 within each row. -/
def findEmptyRows (g : Grid) : List Nat → Option (Nat × Nat)
  | [] => none
  | r :: rs =>
    match findEmptyInRow g r (List.range 9) with
    | some rc => some rc
    | none => findEmptyRows g rs

/-- sudoku_generator.find_empty: first cell (row-major) holding 0, if any. -/
def find_empty (g : Grid) : Option (Nat × Nat) := findEmptyRows g (List.range 9)

namespace Solver

/-- sudoku_solver.is_valid: same predicate, with the row check written as a
scan of columns 0..8 (any(grid[row][c] == val for c in range(9))). -/
def is_valid (g : Grid) (row col val : Nat) : Bool :=
  (List.all (List.range 9) fun c => getCell g row c != val)
  && (List.all (List.range 9) fun r => getCell g r col != val)
  && (List.all (List.range 3) fun i => List.all (List.range 3) fun j =>
       getCell g (row / 3 * 3 + i) (col / 3 * 3 + j) != val)

/-- sudoku_solver.find_empty_cell: textually the same scan as
sudoku_generator.find_empty. -/
def find_empty_cell (g : Grid) : Option (Nat × Nat) := find_empty g

end Solver

/-- The digit loop of fill_grid_backtracking: for each num in nums, if
placeable, place it and run step (the recursive call); on success propagate,
on failure undo the placement (grid[row][col] = 0) and try the next num. -/
def fillTry (step : Grid → Bool × Grid) (g : Grid) (r c : Nat) :
    List Nat → Bool × Grid
  | [] => (false, g)
  | num :: rest =>
    if is_valid g r c num then
      match step (setCell g r c num) with
      | (true, g1) => (true, g1)
      | (false, g1) => fillTry step (setCell g1 r c 0) r c rest
    else fillTry step g r c rest

/-- fill_grid_backtracking, with the shuffled candidate list supplied by
order (random.shuffle produces some permutation of 1..9 at each call; the
grid at a call site determines the call, so a function of the grid covers
every realisable random stream). -/
def fill_grid_backtracking (order : Grid → List Nat) :
    Nat → Grid → Bool × Grid
  | 0, g => (false, g)
  | fuel + 1, g =>
    match find_empty g with
    | none => (true, g)
    | some (r, c) => fillTry (fun g2 => fill_grid_backtracking order fuel g2) g r c (order g)

/-- generate_full_grid: run the fill on the all-zero grid; the RuntimeError
on failure is modelled as none. -/
def generate_full_grid (order : Grid → List Nat) : Option Grid :=
  match fill_grid_backtracking order 82 zeroGrid with
  | (true, g) => some g
  | (false, _) => none

/-- The digit loop of count_solutions: place num, recurse, add the returned
count, undo the placement, and return immediately once the accumulated
count has reached limit. -/
def countTry (step : Grid → Nat × Grid) (g : Grid) (r c limit count : Nat) :
    List Nat → Nat × Grid
  | [] => (count, g)
  | num :: rest =>
    if is_valid g r c num then
      match step (setCell g r c num) with
      | (k, g1) =>
        if limit ≤ count + k then (count + k, setCell g1 r c 0)
        else countTry step (setCell g1 r c 0) r c limit (count + k) rest
    else countTry step g r c limit count rest

/-- count_solutions with fuel: returns the count and the final grid state. -/
def count_solutions : Nat → Grid → Nat → Nat × Grid
  | 0, g, _ => (0, g)
  | fuel + 1, g, limit =>
    match find_empty g with
    | none => (1, g)
    | some (r, c) => countTry (fun g2 => count_solutions fuel g2 limit) g r c limit 0 digits

/-- The digit loop of solve_sudoku (ascending candidate order, solver's
is_valid). -/
def solveTry (step : Grid → Bool × Grid) (g : Grid) (r c : Nat) :
    List Nat → Bool × Grid
  | [] => (false, g)
  | v :: rest =>
    if Solver.is_valid g r c v then
      match step (setCell g r c v) with
      | (true, g1) => (true, g1)
      | (false, g1) => solveTry step (setCell g1 r c 0) r c rest
    else solveTry step g r c rest

/-- sudoku_solver.solve_sudoku with fuel: mutates the grid to the first
solution in ascending digit order, or returns false. -/
def solve_sudoku : Nat → Grid → Bool × Grid
  | 0, g => (false, g)
  | fuel + 1, g =>
    match Solver.find_empty_cell g with
    | none => (true, g)
    | some (r, c) => solveTry (fun g2 => solve_sudoku fuel g2) g r c digits

/-- The removal loop of generate: walk the (shuffled) coordinate list,
stop once maxR cells are removed; for each cell save the value, blank it,
count solutions on a copy with limit 2, and restore the value unless the
count is exactly 1. -/
def digLoop : List (Nat × Nat) → Int → Nat → Grid → Grid
  | [], _, _, p => p
  | (r, c) :: rest, maxR, removed, p =>
    if maxR ≤ (removed : Int) then p
    else
      let orig := getCell p r c
      let p1 := setCell p r c 0
      if (count_solutions 82 p1 2).1 ≠ 1 then
        digLoop rest maxR removed (setCell p1 r c orig)
      else
        digLoop rest maxR (removed + 1) p1

/-- generate: full grid, then uniqueness-preserving digging.  cells is the
shuffled list of the 81 coordinates; rate is mask_rate (a float in the
source, modelled as a rational; int(81 * rate) agrees with ⌊81 * rate⌋ for
rate ≥ 0, and for rate < 0 both make the loop break at once). -/
def generate (order : Grid → List Nat) (cells : List (Nat × Nat)) (rate : ℚ) :
    Option Grid :=
  match fill_grid_backtracking order 82 zeroGrid with
  | (false, _) => none
  | (true, full) => some (digLoop cells (Rat.floor ((81 : ℚ) * rate)) 0 full)

/-- count_clues: number of non-zero cells. -/
def count_clues (g : Grid) : Nat :=
  (List.map (fun row => List.countP (fun v => v != 0) row) g).sum

/-- Number of zero cells (the measure that shrinks at each placement). -/
def countZeros (g : Grid) : Nat :=
  (List.map (fun row => List.countP (fun v => v == 0) row) g).sum

/-- check_partial in the source: no duplicate non-zero value in any row,
column or 3×3 box (the seen-set loops detect exactly a repeated non-zero
value at two distinct positions of a unit).  Named with a suffix; it models
the source function check_partial. -/
def check_partial_ok (g : Grid) : Bool :=
  (List.all (List.range 9) fun r => List.all (List.range 9) fun c1 =>
    List.all (List.range 9) fun c2 =>
      (c1 == c2) || (getCell g r c1 == 0) || (getCell g r c1 != getCell g r c2))
  && (List.all (List.range 9) fun c => List.all (List.range 9) fun r1 =>
    List.all (List.range 9) fun r2 =>
      (r1 == r2) || (getCell g r1 c == 0) || (getCell g r1 c != getCell g r2 c))
  && (List.all (List.range 3) fun br => List.all (List.range 3) fun bc =>
    List.all (List.range 3) fun i1 => List.all (List.range 3) fun j1 =>
    List.all (List.range 3) fun i2 => List.all (List.range 3) fun j2 =>
      ((i1 == i2) && (j1 == j2))
      || (getCell g (3 * br + i1) (3 * bc + j1) == 0)
      || (getCell g (3 * br + i1) (3 * bc + j1) != getCell g (3 * br + i2) (3 * bc + j2)))

/-! ### Basic list lemmas about getD and set -/

theorem list_set_of_le {α : Type} (l : List α) (n : Nat) (v : α)
    (h : l.length ≤ n) : l.set n v = l := by
  induction l generalizing n with
  | nil => simp
  | cons a t ih =>
    cases n with
    | zero => simp at h
    | succ m =>
      simp only [List.set_cons_succ]
      simp only [List.length_cons] at h
      rw [ih m (by omega)]

theorem list_getD_set_self {α : Type} (l : List α) (n : Nat) (v d : α)
    (h : n < l.length) : (l.set n v).getD n d = v := by
  induction l generalizing n with
  | nil => simp at h
  | cons a t ih =>
    cases n with
    | zero => simp
    | succ m =>
      simp only [List.set_cons_succ, List.getD_cons_succ]
      exact ih m (by simpa using h)

theorem list_getD_set_ne {α : Type} (l : List α) (n m : Nat) (v d : α)
    (h : n ≠ m) : (l.set n v).getD m d = l.getD m d := by
  induction l generalizing n m with
  | nil => simp
  | cons a t ih =>
    cases n with
    | zero =>
      cases m with
      | zero => omega
      | succ m2 => simp
    | succ n2 =>
      cases m with
      | zero => simp
      | succ m2 =>
        simp only [List.set_cons_succ, List.getD_cons_succ]
        exact ih n2 m2 (by omega)

theorem list_set_getD_self {α : Type} (l : List α) (n : Nat) (d : α) :
    l.set n (l.getD n d) = l := by
  induction l generalizing n with
  | nil => simp
  | cons a t ih =>
    cases n with
    | zero => simp
    | succ m =>
      simp only [List.getD_cons_succ, List.set_cons_succ]
      rw [ih m]

theorem list_set_set {α : Type} (l : List α) (n : Nat) (v w : α) :
    (l.set n v).set n w = l.set n w := by
  induction l generalizing n with
  | nil => simp
  | cons a t ih =>
    cases n with
    | zero => simp
    | succ m =>
      simp only [List.set_cons_succ]
      rw [ih m]

/-! ### Cell-level lemmas -/

theorem getCell_setCell_self (g : Grid) (r c v : Nat)
    (hr : r < g.length) (hc : c < (g.getD r []).length) :
    getCell (setCell g r c v) r c = v := by
  unfold getCell setCell
  rw [list_getD_set_self g r _ [] hr]
  exact list_getD_set_self _ c v 0 hc

theorem getCell_setCell_ne (g : Grid) (r c v r2 c2 : Nat)
    (h : r2 ≠ r ∨ c2 ≠ c) :
    getCell (setCell g r c v) r2 c2 = getCell g r2 c2 := by
  unfold getCell setCell
  rcases h with h | h
  · rw [list_getD_set_ne g r r2 _ [] (fun he => h he.symm)]
  · by_cases hr : r < g.length
    · by_cases hre : r2 = r
      · subst hre
        rw [list_getD_set_self g r2 _ [] hr]
        exact list_getD_set_ne _ c c2 v 0 (fun he => h he.symm)
      · rw [list_getD_set_ne g r r2 _ [] (fun he => hre he.symm)]
    · rw [list_set_of_le g r _ (by omega)]

theorem setCell_oob (g : Grid) (r c v : Nat) (h : g.length ≤ r) :
    setCell g r c v = g := by
  unfold setCell
  exact list_set_of_le g r _ h

theorem setCell_setCell (g : Grid) (r c v w : Nat) :
    setCell (setCell g r c v) r c w = setCell g r c w := by
  by_cases hr : r < g.length
  · unfold setCell
    rw [list_getD_set_self g r _ [] hr, list_set_set, list_set_set]
  · rw [setCell_oob g r c v (by omega), setCell_oob g r c w (by omega)]

theorem setCell_getCell_self (g : Grid) (r c : Nat) :
    setCell g r c (getCell g r c) = g := by
  unfold setCell getCell
  rw [list_set_getD_self (g.getD r []) c 0]
  exact list_set_getD_self g r []

theorem setCell_zero_of_zero (g : Grid) (r c : Nat) (h : getCell g r c = 0) :
    setCell g r c 0 = g := by
  have := setCell_getCell_self g r c
  rwa [h] at this

theorem length_setCell (g : Grid) (r c v : Nat) :
    (setCell g r c v).length = g.length := by
  unfold setCell
  exact List.length_set _ _ _

theorem list_getD_mem {α : Type} (l : List α) (n : Nat) (d : α)
    (h : n < l.length) : l.getD n d ∈ l := by
  induction l generalizing n with
  | nil => simp at h
  | cons a t ih =>
    cases n with
    | zero => simp
    | succ m =>
      simp only [List.getD_cons_succ]
      exact List.mem_cons_of_mem a (ih m (by simpa using h))

theorem list_getD_of_le {α : Type} (l : List α) (n : Nat) (d : α)
    (h : l.length ≤ n) : l.getD n d = d := by
  induction l generalizing n with
  | nil => simp
  | cons a t ih =>
    cases n with
    | zero => simp at h
    | succ m =>
      simp only [List.getD_cons_succ]
      exact ih m (by simpa using h)

theorem wfGrid_setCell (g : Grid) (r c v : Nat) (h : wfGrid g) :
    wfGrid (setCell g r c v) := by
  obtain ⟨h1, h2⟩ := h
  refine ⟨by rw [length_setCell, h1], ?_⟩
  intro row hrow
  unfold setCell at hrow
  by_cases hr : r < g.length
  · rcases List.mem_or_eq_of_mem_set hrow with hm | he
    · exact h2 row hm
    · subst he
      rw [List.length_set]
      exact h2 _ (list_getD_mem g r [] hr)
  · rw [list_set_of_le g r _ (by omega)] at hrow
    exact h2 row hrow

theorem wf_row_length (g : Grid) (r : Nat) (h : wfGrid g) (hr : r < 9) :
    (g.getD r []).length = 9 := by
  obtain ⟨h1, h2⟩ := h
  exact h2 _ (list_getD_mem g r [] (by omega))

theorem setCell_oob_col (g : Grid) (r c v : Nat)
    (h : (g.getD r []).length ≤ c) : setCell g r c v = g := by
  unfold setCell
  rw [list_set_of_le _ c _ h]
  exact list_set_getD_self g r []

/-! ### Characterization of find_empty -/

theorem findEmptyInRow_eq_none (g : Grid) (r : Nat) :
    ∀ cs, findEmptyInRow g r cs = none ↔ ∀ c ∈ cs, getCell g r c ≠ 0 := by
  intro cs
  induction cs with
  | nil => simp [findEmptyInRow]
  | cons c cs ih =>
    by_cases h : getCell g r c = 0
    · simp [findEmptyInRow, h]
    · simp [findEmptyInRow, h, ih]

theorem findEmptyInRow_eq_some (g : Grid) (r : Nat) :
    ∀ cs r2 c2, findEmptyInRow g r cs = some (r2, c2) →
      r2 = r ∧ c2 ∈ cs ∧ getCell g r c2 = 0 := by
  intro cs
  induction cs with
  | nil => simp [findEmptyInRow]
  | cons c cs ih =>
    intro r2 c2 h
    by_cases hz : getCell g r c = 0
    · simp [findEmptyInRow, hz] at h
      obtain ⟨h1, h2⟩ := h
      subst h1
      subst h2
      exact ⟨rfl, List.mem_cons_self _ _, hz⟩
    · simp [findEmptyInRow, hz] at h
      obtain ⟨h1, h2, h3⟩ := ih r2 c2 h
      exact ⟨h1, List.mem_cons_of_mem _ h2, h3⟩

theorem findEmptyRows_eq_none (g : Grid) :
    ∀ rs, findEmptyRows g rs = none ↔
      ∀ r ∈ rs, ∀ c ∈ List.range 9, getCell g r c ≠ 0 := by
  intro rs
  induction rs with
  | nil => simp [findEmptyRows]
  | cons r rs ih =>
    unfold findEmptyRows
    cases hrow : findEmptyInRow g r (List.range 9) with
    | some rc =>
      simp only []
      constructor
      · intro h
        simp at h
      · intro h
        obtain ⟨hr2, hc2, hz⟩ := findEmptyInRow_eq_some g r _ rc.1 rc.2 (by
          rw [hrow])
        exact absurd hz (h r (List.mem_cons_self _ _) rc.2 hc2)
    | none =>
      simp only []
      rw [ih]
      rw [findEmptyInRow_eq_none] at hrow
      constructor
      · intro h r2 hr2 c hc
        rcases List.mem_cons.mp hr2 with he | hm
        · subst he
          exact hrow c hc
        · exact h r2 hm c hc
      · intro h r2 hr2 c hc
        exact h r2 (List.mem_cons_of_mem _ hr2) c hc

theorem findEmptyRows_eq_some (g : Grid) :
    ∀ rs r2 c2, findEmptyRows g rs = some (r2, c2) →
      r2 ∈ rs ∧ c2 ∈ List.range 9 ∧ getCell g r2 c2 = 0 := by
  intro rs
  induction rs with
  | nil => simp [findEmptyRows]
  | cons r rs ih =>
    intro r2 c2 h
    unfold findEmptyRows at h
    cases hrow : findEmptyInRow g r (List.range 9) with
    | some rc =>
      rw [hrow] at h
      simp only [Option.some.injEq] at h
      subst h
      obtain ⟨hr2, hc2, hz⟩ := findEmptyInRow_eq_some g r _ r2 c2 hrow
      subst hr2
      exact ⟨List.mem_cons_self _ _, hc2, hz⟩
    | none =>
      rw [hrow] at h
      simp only [] at h
      obtain ⟨h1, h2, h3⟩ := ih r2 c2 h
      exact ⟨List.mem_cons_of_mem _ h1, h2, h3⟩

theorem find_empty_eq_none_iff (g : Grid) :
    find_empty g = none ↔ ∀ r, r < 9 → ∀ c, c < 9 → getCell g r c ≠ 0 := by
  unfold find_empty
  rw [findEmptyRows_eq_none]
  simp [List.mem_range]

theorem find_empty_eq_some (g : Grid) (r c : Nat)
    (h : find_empty g = some (r, c)) :
    r < 9 ∧ c < 9 ∧ getCell g r c = 0 := by
  unfold find_empty at h
  obtain ⟨h1, h2, h3⟩ := findEmptyRows_eq_some g _ r c h
  exact ⟨List.mem_range.mp h1, List.mem_range.mp h2, h3⟩

/-! ### Characterizations of the validity predicates -/

/-- No occurrence of v among columns 0..8 of row r. -/
def noRowHit (g : Grid) (r v : Nat) : Prop := ∀ c, c < 9 → getCell g r c ≠ v

/-- No occurrence of v among rows 0..8 of column c. -/
def noColHit (g : Grid) (c v : Nat) : Prop := ∀ r, r < 9 → getCell g r c ≠ v

/-- No occurrence of v in the 3×3 box containing (r, c). -/
def noBoxHit (g : Grid) (r c v : Nat) : Prop :=
  ∀ i, i < 3 → ∀ j, j < 3 → getCell g (r / 3 * 3 + i) (c / 3 * 3 + j) ≠ v

theorem list_mem_iff_getD (l : List Nat) (x : Nat) :
    x ∈ l ↔ ∃ i, i < l.length ∧ l.getD i 0 = x := by
  induction l with
  | nil => simp
  | cons a t ih =>
    simp only [List.mem_cons, ih]
    constructor
    · rintro (he | ⟨i, hi, he⟩)
      · exact ⟨0, by simp, by simp [he]⟩
      · exact ⟨i + 1, by simp; omega, by simpa using he⟩
    · rintro ⟨i, hi, he⟩
      cases i with
      | zero => exact Or.inl (by simpa using he.symm)
      | succ i2 =>
        exact Or.inr ⟨i2, by simp at hi; omega, by simpa using he⟩

theorem solver_is_valid_iff (g : Grid) (r c v : Nat) :
    Solver.is_valid g r c v = true ↔
      noRowHit g r v ∧ noColHit g c v ∧ noBoxHit g r c v := by
  unfold Solver.is_valid noRowHit noColHit noBoxHit
  simp only [Bool.and_eq_true, List.all_eq_true, List.mem_range, bne_iff_ne]
  exact and_assoc

theorem gen_is_valid_iff (g : Grid) (r c v : Nat) (hwf : wfGrid g)
    (hr : r < 9) :
    is_valid g r c v = true ↔
      noRowHit g r v ∧ noColHit g c v ∧ noBoxHit g r c v := by
  unfold is_valid noRowHit noColHit noBoxHit
  simp only [Bool.and_eq_true, Bool.not_eq_true', List.all_eq_true,
    List.mem_range, bne_iff_ne]
  constructor
  · rintro ⟨⟨hrow, hcol⟩, hbox⟩
    refine ⟨?_, fun r2 h2 => hcol r2 h2, fun i hi j hj => hbox i hi j hj⟩
    intro c2 hc2 he
    have hnm : v ∉ List.getD g r [] := by simpa using hrow
    exact hnm (by
      rw [list_mem_iff_getD]
      exact ⟨c2, by rw [wf_row_length g r hwf hr]; omega, he⟩)
  · rintro ⟨hrow, hcol, hbox⟩
    refine ⟨⟨?_, fun r2 h2 => hcol r2 h2⟩, fun i hi j hj => hbox i hi j hj⟩
    have hnm : v ∉ List.getD g r [] := by
      intro hmem
      rw [list_mem_iff_getD] at hmem
      obtain ⟨i, hi, he⟩ := hmem
      rw [wf_row_length g r hwf hr] at hi
      exact hrow i hi he
    simpa using hnm

/-! ### Characterization of check_partial (no duplicate non-zero in a unit) -/

/-- Rows have no repeated non-zero value at two distinct columns. -/
def rowsOk (g : Grid) : Prop :=
  ∀ r, r < 9 → ∀ c1, c1 < 9 → ∀ c2, c2 < 9 → c1 ≠ c2 →
    getCell g r c1 ≠ 0 → getCell g r c1 ≠ getCell g r c2

/-- Columns have no repeated non-zero value at two distinct rows. -/
def colsOk (g : Grid) : Prop :=
  ∀ c, c < 9 → ∀ r1, r1 < 9 → ∀ r2, r2 < 9 → r1 ≠ r2 →
    getCell g r1 c ≠ 0 → getCell g r1 c ≠ getCell g r2 c

/-- Boxes have no repeated non-zero value at two distinct cells. -/
def boxesOk (g : Grid) : Prop :=
  ∀ br, br < 3 → ∀ bc, bc < 3 →
  ∀ i1, i1 < 3 → ∀ j1, j1 < 3 → ∀ i2, i2 < 3 → ∀ j2, j2 < 3 →
    ¬(i1 = i2 ∧ j1 = j2) →
    getCell g (3 * br + i1) (3 * bc + j1) ≠ 0 →
    getCell g (3 * br + i1) (3 * bc + j1) ≠ getCell g (3 * br + i2) (3 * bc + j2)

theorem check_partial_ok_iff (g : Grid) :
    check_partial_ok g = true ↔ rowsOk g ∧ colsOk g ∧ boxesOk g := by
  unfold check_partial_ok rowsOk colsOk boxesOk
  simp only [Bool.and_eq_true, List.all_eq_true, List.mem_range,
    Bool.or_eq_true, beq_iff_eq, bne_iff_ne, ne_eq]
  constructor
  · rintro ⟨⟨hrowsB, hcolsB⟩, hboxB⟩
    refine ⟨?_, ?_, ?_⟩
    · intro r hr c1 h1 c2 h2 hne hnz
      have := hrowsB r hr c1 h1 c2 h2
      tauto
    · intro c hc r1 h1 r2 h2 hne hnz
      have := hcolsB c hc r1 h1 r2 h2
      tauto
    · intro br hbr bc hbc i1 hi1 j1 hj1 i2 hi2 j2 hj2 hne hnz
      have := hboxB br hbr bc hbc i1 hi1 j1 hj1 i2 hi2 j2 hj2
      tauto
  · rintro ⟨hrowsP, hcolsP, hboxP⟩
    refine ⟨⟨?_, ?_⟩, ?_⟩
    · intro r hr c1 h1 c2 h2
      have := hrowsP r hr c1 h1 c2 h2
      tauto
    · intro c hc r1 h1 r2 h2
      have := hcolsP c hc r1 h1 r2 h2
      tauto
    · intro br hbr bc hbc i1 hi1 j1 hj1 i2 hi2 j2 hj2
      have := hboxP br hbr bc hbc i1 hi1 j1 hj1 i2 hi2 j2 hj2
      tauto

/-! ### Value-range and zero-count lemmas -/

theorem valsLe9_setCell (g : Grid) (r c v : Nat) (h : valsLe9 g)
    (hv : v ≤ 9) : valsLe9 (setCell g r c v) := by
  intro r2 hr2 c2 hc2
  by_cases hr : r < g.length
  · by_cases hc : c < (g.getD r []).length
    · by_cases he : r2 = r ∧ c2 = c
      · obtain ⟨e1, e2⟩ := he
        subst e1
        subst e2
        rw [getCell_setCell_self g r2 c2 v hr hc]
        exact hv
      · rw [getCell_setCell_ne g r c v r2 c2 (by tauto)]
        exact h r2 hr2 c2 hc2
    · rw [setCell_oob_col g r c v (by omega)]
      exact h r2 hr2 c2 hc2
  · rw [setCell_oob g r c v (by omega)]
    exact h r2 hr2 c2 hc2

theorem mem_digits_iff (v : Nat) : v ∈ digits ↔ 1 ≤ v ∧ v ≤ 9 := by
  unfold digits
  simp only [List.mem_cons, List.not_mem_nil, or_false]
  omega

theorem list_countP_set (p : Nat → Bool) (l : List Nat) :
    ∀ c v, c < l.length →
      (l.set c v).countP p + (if p (l.getD c 0) then 1 else 0) =
        l.countP p + (if p v then 1 else 0) := by
  induction l with
  | nil => intro c v h; simp at h
  | cons a t ih =>
    intro c v h
    cases c with
    | zero =>
      simp only [List.set_cons_zero, List.getD_cons_zero, List.countP_cons]
      by_cases hp : p v <;> by_cases ha : p a <;> simp [hp, ha]
    | succ m =>
      simp only [List.set_cons_succ, List.getD_cons_succ, List.countP_cons]
      have := ih m v (by simpa using h)
      simp only [List.getD_eq_getElem?_getD] at this ⊢
      by_cases ha : p a <;> simp [ha] <;> omega

theorem list_sum_map_set (f : List Nat → Nat) (l : List (List Nat)) :
    ∀ n x, n < l.length →
      ((l.set n x).map f).sum + f (l.getD n []) = (l.map f).sum + f x := by
  induction l with
  | nil => intro n x h; simp at h
  | cons a t ih =>
    intro n x h
    cases n with
    | zero => simp; omega
    | succ m =>
      simp only [List.set_cons_succ, List.getD_cons_succ, List.map_cons,
        List.sum_cons]
      have := ih m x (by simpa using h)
      omega

theorem countZeros_setCell (g : Grid) (r c v : Nat) (hwf : wfGrid g)
    (hr : r < 9) (hc : c < 9) (h0 : getCell g r c = 0) (hv : v ≠ 0) :
    countZeros (setCell g r c v) + 1 = countZeros g := by
  have hlen : r < g.length := by
    obtain ⟨h1, _⟩ := hwf
    omega
  have hrl : (g.getD r []).length = 9 := wf_row_length g r hwf hr
  unfold countZeros setCell
  have hsum := list_sum_map_set (fun row => List.countP (fun x => x == 0) row)
    g r ((g.getD r []).set c v) hlen
  have hcnt := list_countP_set (fun x => x == 0) (g.getD r []) c v (by omega)
  unfold getCell at h0
  rw [h0] at hcnt
  simp only [beq_self_eq_true, if_true] at hcnt
  have hvz : ((v == 0) = false) := by simpa using hv
  simp only [hvz, Bool.false_eq_true, if_false] at hcnt
  simp only [] at hsum
  omega

/-! ### Restoration: every failing path undoes its placements -/

theorem fillTry_restore (step : Grid → Bool × Grid)
    (hstep : ∀ g2, (step g2).1 = false → (step g2).2 = g2)
    (g : Grid) (r c : Nat) (h0 : getCell g r c = 0) :
    ∀ nums, (fillTry step g r c nums).1 = false →
      (fillTry step g r c nums).2 = g := by
  intro nums
  induction nums with
  | nil => intro _; simp [fillTry]
  | cons num rest ih =>
    intro hfail
    by_cases hv : is_valid g r c num = true
    · cases hs : step (setCell g r c num) with
      | mk b g1 =>
        cases b with
        | true =>
          have : fillTry step g r c (num :: rest) = (true, g1) := by
            simp [fillTry, hv, hs]
          rw [this] at hfail
          simp at hfail
        | false =>
          have h1 : g1 = setCell g r c num := by
            have := hstep (setCell g r c num) (by rw [hs])
            rwa [hs] at this
          have hrew : setCell g1 r c 0 = g := by
            rw [h1, setCell_setCell, setCell_zero_of_zero g r c h0]
          have heq : fillTry step g r c (num :: rest) =
              fillTry step (setCell g1 r c 0) r c rest := by
            simp [fillTry, hv, hs]
          rw [heq, hrew] at hfail ⊢
          exact ih hfail
    · have heq : fillTry step g r c (num :: rest) = fillTry step g r c rest := by
        simp [fillTry, hv]
      rw [heq] at hfail ⊢
      exact ih hfail

theorem fill_restore (order : Grid → List Nat) :
    ∀ fuel g, (fill_grid_backtracking order fuel g).1 = false →
      (fill_grid_backtracking order fuel g).2 = g := by
  intro fuel
  induction fuel with
  | zero => intro g _; simp [fill_grid_backtracking]
  | succ n ih =>
    intro g hfail
    cases hfe : find_empty g with
    | none =>
      have : fill_grid_backtracking order (n + 1) g = (true, g) := by
        simp [fill_grid_backtracking, hfe]
      rw [this] at hfail
      simp at hfail
    | some rc =>
      obtain ⟨r, c⟩ := rc
      obtain ⟨hr, hc, h0⟩ := find_empty_eq_some g r c hfe
      have heq : fill_grid_backtracking order (n + 1) g =
          fillTry (fun g2 => fill_grid_backtracking order n g2) g r c (order g) := by
        simp [fill_grid_backtracking, hfe]
      rw [heq] at hfail ⊢
      exact fillTry_restore _ (fun g2 h => ih g2 h) g r c h0 (order g) hfail

theorem solveTry_restore (step : Grid → Bool × Grid)
    (hstep : ∀ g2, (step g2).1 = false → (step g2).2 = g2)
    (g : Grid) (r c : Nat) (h0 : getCell g r c = 0) :
    ∀ nums, (solveTry step g r c nums).1 = false →
      (solveTry step g r c nums).2 = g := by
  intro nums
  induction nums with
  | nil => intro _; simp [solveTry]
  | cons num rest ih =>
    intro hfail
    by_cases hv : Solver.is_valid g r c num = true
    · cases hs : step (setCell g r c num) with
      | mk b g1 =>
        cases b with
        | true =>
          have : solveTry step g r c (num :: rest) = (true, g1) := by
            simp [solveTry, hv, hs]
          rw [this] at hfail
          simp at hfail
        | false =>
          have h1 : g1 = setCell g r c num := by
            have := hstep (setCell g r c num) (by rw [hs])
            rwa [hs] at this
          have hrew : setCell g1 r c 0 = g := by
            rw [h1, setCell_setCell, setCell_zero_of_zero g r c h0]
          have heq : solveTry step g r c (num :: rest) =
              solveTry step (setCell g1 r c 0) r c rest := by
            simp [solveTry, hv, hs]
          rw [heq, hrew] at hfail ⊢
          exact ih hfail
    · have heq : solveTry step g r c (num :: rest) = solveTry step g r c rest := by
        simp [solveTry, hv]
      rw [heq] at hfail ⊢
      exact ih hfail

theorem solve_restore :
    ∀ fuel g, (solve_sudoku fuel g).1 = false → (solve_sudoku fuel g).2 = g := by
  intro fuel
  induction fuel with
  | zero => intro g _; simp [solve_sudoku]
  | succ n ih =>
    intro g hfail
    cases hfe : Solver.find_empty_cell g with
    | none =>
      have : solve_sudoku (n + 1) g = (true, g) := by
        simp [solve_sudoku, hfe]
      rw [this] at hfail
      simp at hfail
    | some rc =>
      obtain ⟨r, c⟩ := rc
      obtain ⟨hr, hc, h0⟩ := find_empty_eq_some g r c hfe
      have heq : solve_sudoku (n + 1) g =
          solveTry (fun g2 => solve_sudoku n g2) g r c digits := by
        simp [solve_sudoku, hfe]
      rw [heq] at hfail ⊢
      exact solveTry_restore _ (fun g2 h => ih g2 h) g r c h0 digits hfail

theorem countTry_restore (step : Grid → Nat × Grid)
    (hstep : ∀ g2, (step g2).2 = g2)
    (g : Grid) (r c limit : Nat) (h0 : getCell g r c = 0) :
    ∀ nums count, (countTry step g r c limit count nums).2 = g := by
  intro nums
  induction nums with
  | nil => intro count; simp [countTry]
  | cons num rest ih =>
    intro count
    by_cases hv : is_valid g r c num = true
    · cases hs : step (setCell g r c num) with
      | mk k g1 =>
        have h1 : g1 = setCell g r c num := by
          have := hstep (setCell g r c num)
          rwa [hs] at this
        have hrew : setCell g1 r c 0 = g := by
          rw [h1, setCell_setCell, setCell_zero_of_zero g r c h0]
        by_cases hl : limit ≤ count + k
        · have : countTry step g r c limit count (num :: rest) =
              (count + k, setCell g1 r c 0) := by
            simp [countTry, hv, hs, hl]
          rw [this, hrew]
        · have : countTry step g r c limit count (num :: rest) =
              countTry step (setCell g1 r c 0) r c limit (count + k) rest := by
            simp [countTry, hv, hs, hl]
          rw [this, hrew]
          exact ih (count + k)
    · have : countTry step g r c limit count (num :: rest) =
          countTry step g r c limit count rest := by
        simp [countTry, hv]
      rw [this]
      exact ih count

theorem count_restore :
    ∀ fuel g limit, (count_solutions fuel g limit).2 = g := by
  intro fuel
  induction fuel with
  | zero => intro g limit; simp [count_solutions]
  | succ n ih =>
    intro g limit
    cases hfe : find_empty g with
    | none => simp [count_solutions, hfe]
    | some rc =>
      obtain ⟨r, c⟩ := rc
      obtain ⟨hr, hc, h0⟩ := find_empty_eq_some g r c hfe
      have heq : count_solutions (n + 1) g limit =
          countTry (fun g2 => count_solutions n g2 limit) g r c limit 0 digits := by
        simp [count_solutions, hfe]
      rw [heq]
      exact countTry_restore _ (fun g2 => ih g2 limit) g r c limit h0 digits 0

/-! ### A legal placement preserves the no-conflict invariant -/

/-- The running invariant of every search: well-formed shape, values in
range, and no duplicated non-zero value in any unit. -/
def GridInv (g : Grid) : Prop :=
  wfGrid g ∧ valsLe9 g ∧ rowsOk g ∧ colsOk g ∧ boxesOk g

theorem getCell_setCell_cases (g : Grid) (r c v r2 c2 : Nat)
    (hr : r < g.length) (hc : c < (g.getD r []).length) :
    getCell (setCell g r c v) r2 c2 =
      if r2 = r ∧ c2 = c then v else getCell g r2 c2 := by
  by_cases he : r2 = r ∧ c2 = c
  · obtain ⟨e1, e2⟩ := he
    subst e1
    subst e2
    simp [getCell_setCell_self g r2 c2 v hr hc]
  · rw [if_neg he]
    exact getCell_setCell_ne g r c v r2 c2 (by tauto)

theorem GridInv_place (g : Grid) (r c v : Nat) (hinv : GridInv g)
    (hr : r < 9) (hc : c < 9) (h0 : getCell g r c = 0)
    (hval : is_valid g r c v = true) (hv9 : v ≤ 9) :
    GridInv (setCell g r c v) := by
  obtain ⟨hwf, hv, hrows, hcols, hbox⟩ := hinv
  obtain ⟨hrowhit, hcolhit, hboxhit⟩ := (gen_is_valid_iff g r c v hwf hr).mp hval
  have hlen : r < g.length := by
    obtain ⟨h1, _⟩ := hwf
    omega
  have hclen : c < (g.getD r []).length := by
    rw [wf_row_length g r hwf hr]
    omega
  have hcc := getCell_setCell_cases g r c v
  refine ⟨wfGrid_setCell g r c v hwf, valsLe9_setCell g r c v hv hv9, ?_, ?_, ?_⟩
  · intro r2 hr2 c1 h1 c2 h2 hne hnz
    rw [hcc r2 c1 hlen hclen] at hnz
    rw [hcc r2 c1 hlen hclen, hcc r2 c2 hlen hclen]
    by_cases e1 : r2 = r ∧ c1 = c
    · rw [if_pos e1] at hnz ⊢
      have e2 : ¬(r2 = r ∧ c2 = c) := by
        intro h
        exact hne (e1.2.trans h.2.symm)
      rw [if_neg e2]
      exact fun h => hrowhit c2 h2 (by rw [← e1.1]; exact h.symm)
    · rw [if_neg e1] at hnz ⊢
      by_cases e2 : r2 = r ∧ c2 = c
      · rw [if_pos e2]
        exact fun h => hrowhit c1 h1 (by rw [← e2.1]; exact h)
      · rw [if_neg e2]
        exact hrows r2 hr2 c1 h1 c2 h2 hne hnz
  · intro c0 hc0 r1 h1 r2 h2 hne hnz
    rw [hcc r1 c0 hlen hclen] at hnz
    rw [hcc r1 c0 hlen hclen, hcc r2 c0 hlen hclen]
    by_cases e1 : r1 = r ∧ c0 = c
    · rw [if_pos e1] at hnz ⊢
      have e2 : ¬(r2 = r ∧ c0 = c) := by
        intro h
        exact hne (e1.1.trans h.1.symm)
      rw [if_neg e2]
      exact fun h => hcolhit r2 h2 (by rw [← e1.2]; exact h.symm)
    · rw [if_neg e1] at hnz ⊢
      by_cases e2 : r2 = r ∧ c0 = c
      · rw [if_pos e2]
        exact fun h => hcolhit r1 h1 (by rw [← e2.2]; exact h)
      · rw [if_neg e2]
        exact hcols c0 hc0 r1 h1 r2 h2 hne hnz
  · intro br hbr bc hbc i1 hi1 j1 hj1 i2 hi2 j2 hj2 hne hnz
    rw [hcc (3 * br + i1) (3 * bc + j1) hlen hclen] at hnz
    rw [hcc (3 * br + i1) (3 * bc + j1) hlen hclen,
      hcc (3 * br + i2) (3 * bc + j2) hlen hclen]
    by_cases e1 : 3 * br + i1 = r ∧ 3 * bc + j1 = c
    · rw [if_pos e1] at hnz ⊢
      have e2 : ¬(3 * br + i2 = r ∧ 3 * bc + j2 = c) := by
        intro h
        exact hne ⟨by omega, by omega⟩
      rw [if_neg e2]
      intro h
      have hbrv : br = r / 3 := by omega
      have hbcv : bc = c / 3 := by omega
      have := hboxhit i2 hi2 j2 hj2
      have e3 : r / 3 * 3 + i2 = 3 * br + i2 := by omega
      have e4 : c / 3 * 3 + j2 = 3 * bc + j2 := by omega
      rw [e3, e4] at this
      exact this h.symm
    · rw [if_neg e1] at hnz ⊢
      by_cases e2 : 3 * br + i2 = r ∧ 3 * bc + j2 = c
      · rw [if_pos e2]
        intro h
        have := hboxhit i1 hi1 j1 hj1
        have e3 : r / 3 * 3 + i1 = 3 * br + i1 := by omega
        have e4 : c / 3 * 3 + j1 = 3 * bc + j1 := by omega
        rw [e3, e4] at this
        exact this h
      · rw [if_neg e2]
        exact hbox br hbr bc hbc i1 hi1 j1 hj1 i2 hi2 j2 hj2 hne hnz

/-! ### The fill search preserves the invariant and completes the grid -/

theorem fillTry_inv (step : Grid → Bool × Grid)
    (hstep : ∀ g2, GridInv g2 →
      GridInv (step g2).2 ∧ ((step g2).1 = true → find_empty (step g2).2 = none))
    (hstep_restore : ∀ g2, (step g2).1 = false → (step g2).2 = g2)
    (g : Grid) (r c : Nat) (hr : r < 9) (hc : c < 9)
    (h0 : getCell g r c = 0) (hinv : GridInv g) :
    ∀ nums, (∀ v ∈ nums, v ≤ 9) →
      GridInv (fillTry step g r c nums).2 ∧
      ((fillTry step g r c nums).1 = true →
        find_empty (fillTry step g r c nums).2 = none) := by
  intro nums
  induction nums with
  | nil =>
    intro _
    constructor
    · simpa [fillTry] using hinv
    · intro h
      simp [fillTry] at h
  | cons num rest ih =>
    intro hmem
    by_cases hv : is_valid g r c num = true
    · have hinv2 : GridInv (setCell g r c num) :=
        GridInv_place g r c num hinv hr hc h0 hv
          (hmem num (List.mem_cons_self _ _))
      cases hs : step (setCell g r c num) with
      | mk b g1 =>
        cases b with
        | true =>
          have heq : fillTry step g r c (num :: rest) = (true, g1) := by
            simp [fillTry, hv, hs]
          rw [heq]
          have := hstep (setCell g r c num) hinv2
          rw [hs] at this
          exact ⟨this.1, fun _ => this.2 rfl⟩
        | false =>
          have h1 : g1 = setCell g r c num := by
            have := hstep_restore (setCell g r c num) (by rw [hs])
            rwa [hs] at this
          have hrew : setCell g1 r c 0 = g := by
            rw [h1, setCell_setCell, setCell_zero_of_zero g r c h0]
          have heq : fillTry step g r c (num :: rest) =
              fillTry step (setCell g1 r c 0) r c rest := by
            simp [fillTry, hv, hs]
          rw [heq, hrew]
          exact ih (fun v hm => hmem v (List.mem_cons_of_mem _ hm))
    · have heq : fillTry step g r c (num :: rest) = fillTry step g r c rest := by
        simp [fillTry, hv]
      rw [heq]
      exact ih (fun v hm => hmem v (List.mem_cons_of_mem _ hm))

theorem fill_inv (order : Grid → List Nat)
    (horder : ∀ g2 v, v ∈ order g2 → v ∈ digits) :
    ∀ fuel g, GridInv g →
      GridInv (fill_grid_backtracking order fuel g).2 ∧
      ((fill_grid_backtracking order fuel g).1 = true →
        find_empty (fill_grid_backtracking order fuel g).2 = none) := by
  intro fuel
  induction fuel with
  | zero =>
    intro g hinv
    constructor
    · simpa [fill_grid_backtracking] using hinv
    · intro h
      simp [fill_grid_backtracking] at h
  | succ n ih =>
    intro g hinv
    cases hfe : find_empty g with
    | none =>
      have heq : fill_grid_backtracking order (n + 1) g = (true, g) := by
        simp [fill_grid_backtracking, hfe]
      rw [heq]
      exact ⟨hinv, fun _ => hfe⟩
    | some rc =>
      obtain ⟨r, c⟩ := rc
      obtain ⟨hr, hc, h0⟩ := find_empty_eq_some g r c hfe
      have heq : fill_grid_backtracking order (n + 1) g =
          fillTry (fun g2 => fill_grid_backtracking order n g2) g r c (order g) := by
        simp [fill_grid_backtracking, hfe]
      rw [heq]
      exact fillTry_inv _ (fun g2 hi => ih g2 hi)
        (fun g2 h => fill_restore order n g2 h) g r c hr hc h0 hinv (order g)
        (fun v hm => ((mem_digits_iff v).mp (horder g v hm)).2)

/-! ### Complete conflict-free grids: every unit is a permutation of 1..9 -/

/-- The list of values in row r. -/
def rowList (g : Grid) (r : Nat) : List Nat := g.getD r []

/-- The list of values in column c (rows 0..8). -/
def colList (g : Grid) (c : Nat) : List Nat :=
  (List.range 9).map (fun r => getCell g r c)

/-- The list of values in the box with corner (3 br, 3 bc), row-major. -/
def boxList (g : Grid) (br bc : Nat) : List Nat :=
  (List.range 3 ×ˢ List.range 3).map
    (fun p => getCell g (3 * br + p.1) (3 * bc + p.2))

theorem list_eq_map_range_getD (l : List Nat) :
    l = (List.range l.length).map (fun i => l.getD i 0) := by
  refine List.ext_getElem (by simp) ?_
  intro i h1 h2
  simp [List.getD_eq_getElem?_getD, List.getElem?_eq_getElem h1]

theorem rowList_eq_map (g : Grid) (r : Nat) (hwf : wfGrid g) (hr : r < 9) :
    rowList g r = (List.range 9).map (fun c => getCell g r c) := by
  unfold rowList getCell
  have h9 : (g.getD r []).length = 9 := wf_row_length g r hwf hr
  conv_lhs => rw [list_eq_map_range_getD (g.getD r [])]
  rw [h9]

theorem perm_digits_of (L : List Nat) (hlen : L.length = 9) (hnodup : L.Nodup)
    (hsub : ∀ x ∈ L, x ∈ digits) : L.Perm digits := by
  have hsb : L.Subperm digits := List.subperm_of_subset hnodup hsub
  exact hsb.perm_of_length_le (by rw [hlen]; rfl)

theorem complete_cell_mem_digits (g : Grid) (hinv : GridInv g)
    (hcomp : find_empty g = none) (r c : Nat) (hr : r < 9) (hc : c < 9) :
    getCell g r c ∈ digits := by
  obtain ⟨hwf, hv, _⟩ := hinv
  rw [mem_digits_iff]
  have hnz := (find_empty_eq_none_iff g).mp hcomp r hr c hc
  have := hv r hr c hc
  omega

theorem complete_rowList_perm (g : Grid) (hinv : GridInv g)
    (hcomp : find_empty g = none) (r : Nat) (hr : r < 9) :
    (rowList g r).Perm digits := by
  obtain ⟨hwf, hv, hrows, hcols, hbox⟩ := hinv
  rw [rowList_eq_map g r hwf hr]
  refine perm_digits_of _ (by simp) ?_ ?_
  · refine List.Nodup.map_on ?_ (List.nodup_range 9)
    intro c1 hc1 c2 hc2 he
    by_contra hne
    exact hrows r hr c1 (List.mem_range.mp hc1) c2 (List.mem_range.mp hc2) hne
      ((find_empty_eq_none_iff g).mp hcomp r hr c1 (List.mem_range.mp hc1)) he
  · intro x hx
    rw [List.mem_map] at hx
    obtain ⟨c, hc, he⟩ := hx
    rw [← he]
    exact complete_cell_mem_digits g ⟨hwf, hv, hrows, hcols, hbox⟩ hcomp r c hr
      (List.mem_range.mp hc)

theorem complete_colList_perm (g : Grid) (hinv : GridInv g)
    (hcomp : find_empty g = none) (c : Nat) (hc : c < 9) :
    (colList g c).Perm digits := by
  obtain ⟨hwf, hv, hrows, hcols, hbox⟩ := hinv
  unfold colList
  refine perm_digits_of _ (by simp) ?_ ?_
  · refine List.Nodup.map_on ?_ (List.nodup_range 9)
    intro r1 h1 r2 h2 he
    by_contra hne
    exact hcols c hc r1 (List.mem_range.mp h1) r2 (List.mem_range.mp h2) hne
      ((find_empty_eq_none_iff g).mp hcomp r1 (List.mem_range.mp h1) c hc) he
  · intro x hx
    rw [List.mem_map] at hx
    obtain ⟨r, hrm, he⟩ := hx
    rw [← he]
    exact complete_cell_mem_digits g ⟨hwf, hv, hrows, hcols, hbox⟩ hcomp r c
      (List.mem_range.mp hrm) hc

theorem complete_boxList_perm (g : Grid) (hinv : GridInv g)
    (hcomp : find_empty g = none) (br bc : Nat) (hbr : br < 3) (hbc : bc < 3) :
    (boxList g br bc).Perm digits := by
  obtain ⟨hwf, hv, hrows, hcols, hbox⟩ := hinv
  unfold boxList
  refine perm_digits_of _ (by simp [List.length_product]) ?_ ?_
  · refine List.Nodup.map_on ?_
      ((List.nodup_range 3).product (List.nodup_range 3))
    intro p1 hp1 p2 hp2 he
    obtain ⟨i1, j1⟩ := p1
    obtain ⟨i2, j2⟩ := p2
    rw [List.mem_product] at hp1 hp2
    simp only [List.mem_range] at hp1 hp2
    by_contra hne
    refine hbox br hbr bc hbc i1 hp1.1 j1 hp1.2 i2 hp2.1 j2 hp2.2 ?_
      ((find_empty_eq_none_iff g).mp hcomp (3 * br + i1) (by omega)
        (3 * bc + j1) (by omega)) he
    intro ⟨e1, e2⟩
    exact hne (by simp [e1, e2])
  · intro x hx
    rw [List.mem_map] at hx
    obtain ⟨p, hp, he⟩ := hx
    obtain ⟨i, j⟩ := p
    rw [List.mem_product] at hp
    simp only [List.mem_range] at hp
    rw [← he]
    exact complete_cell_mem_digits g ⟨hwf, hv, hrows, hcols, hbox⟩ hcomp _ _
      (by omega) (by omega)

instance (g : Grid) : Decidable (GridInv g) := by
  unfold GridInv wfGrid valsLe9 rowsOk colsOk boxesOk
  infer_instance

/-! ### Concrete grids used as witnesses and counterexamples -/

/-- A concrete complete conflict-free grid (row r is the cyclic shift of
1..9 by 3 r + r / 3 places). -/
def cyclicGrid : Grid :=
  [[1,2,3,4,5,6,7,8,9],
   [4,5,6,7,8,9,1,2,3],
   [7,8,9,1,2,3,4,5,6],
   [2,3,4,5,6,7,8,9,1],
   [5,6,7,8,9,1,2,3,4],
   [8,9,1,2,3,4,5,6,7],
   [3,4,5,6,7,8,9,1,2],
   [6,7,8,9,1,2,3,4,5],
   [9,1,2,3,4,5,6,7,8]]

/-- A candidate order (one possible outcome of random.shuffle) that offers
the value of the reference solution sol first at each step. -/
def solOrder (sol : Grid) (g : Grid) : List Nat :=
  match find_empty g with
  | some (r, c) => getCell sol r c :: List.erase digits (getCell sol r c)
  | none => digits

theorem solOrder_mem (sol : Grid) (hsol : ∀ r, r < 9 → ∀ c, c < 9 → getCell sol r c ∈ digits) :
    ∀ g v, v ∈ solOrder sol g → v ∈ digits := by
  intro g v hv
  unfold solOrder at hv
  cases hfe : find_empty g with
  | none =>
    rw [hfe] at hv
    exact hv
  | some rc =>
    obtain ⟨r, c⟩ := rc
    rw [hfe] at hv
    obtain ⟨hr, hc, _⟩ := find_empty_eq_some g r c hfe
    rcases List.mem_cons.mp hv with he | hm
    · rw [he]
      exact hsol r hr c hc
    · exact List.erase_subset _ _ hm

/-- cyclicGrid with 8 cells of an intersecting unavoidable set blanked:
count_solutions explores digit 1 at (0,0) (one completion), then digit 4
(two completions, early return 2), and returns 1 + 2 = 3 with limit 2. -/
def puzzle3Grid : Grid :=
  [[0,2,3,0,5,6,0,8,9],
   [0,5,6,0,8,9,0,2,3],
   [0,8,9,0,2,3,4,5,6],
   [2,3,4,5,6,7,8,9,1],
   [5,6,7,8,9,1,2,3,4],
   [8,9,1,2,3,4,5,6,7],
   [3,4,5,6,7,8,9,1,2],
   [6,7,8,9,1,2,3,4,5],
   [9,1,2,3,4,5,6,7,8]]

/-- cyclicGrid with cell (0,0) misread as 2 (conflicting with (0,1)) and
two cells of row 8 blanked: an inconsistent board whose blanks are still
fillable. -/
def conflictGrid : Grid :=
  [[2,2,3,4,5,6,7,8,9],
   [4,5,6,7,8,9,1,2,3],
   [7,8,9,1,2,3,4,5,6],
   [2,3,4,5,6,7,8,9,1],
   [5,6,7,8,9,1,2,3,4],
   [8,9,1,2,3,4,5,6,7],
   [3,4,5,6,7,8,9,1,2],
   [6,7,8,9,1,2,3,4,5],
   [9,1,2,3,4,5,6,0,0]]

/-- A grid on which every search fails at once: cell (0,0) is empty but
digits 1..8 sit in row 0 and digit 9 sits in column 0. -/
def stuckGrid : Grid :=
  [[0,1,2,3,4,5,6,7,8],
   [9,0,0,0,0,0,0,0,0],
   [0,0,0,0,0,0,0,0,0],
   [0,0,0,0,0,0,0,0,0],
   [0,0,0,0,0,0,0,0,0],
   [0,0,0,0,0,0,0,0,0],
   [0,0,0,0,0,0,0,0,0],
   [0,0,0,0,0,0,0,0,0],
   [0,0,0,0,0,0,0,0,0]]

/-! ### Claim C9 -/

/-- C9: count_solutions restores its argument on every return path
(including the early limit-reached return): for every grid, every limit and
every recursion budget, the grid component of the result equals the input
grid, so the defensive copy made by generate before calling it is not
needed for state preservation. -/
theorem count_solutions_preserves_grid :
    ∀ fuel g limit, (count_solutions fuel g limit).2 = g :=
  count_restore

/-! ### Claim C6 -/

/-- C6: backtracking is atomic on failure: whenever fill_grid_backtracking
or solve_sudoku returns false, every placement made on the failing path has
been undone, and the returned grid state equals the grid at entry. -/
theorem backtracking_failure_restores_grid :
    (∀ order fuel g, (fill_grid_backtracking order fuel g).1 = false →
      (fill_grid_backtracking order fuel g).2 = g) ∧
    (∀ fuel g, (solve_sudoku fuel g).1 = false →
      (solve_sudoku fuel g).2 = g) :=
  ⟨fun order => fill_restore order, solve_restore⟩

/-- Witness for C6 at a concrete failing input. -/
theorem backtracking_failure_restores_grid_witness :
    (fill_grid_backtracking (fun _ => digits) 82 stuckGrid).1 = false ∧
    (fill_grid_backtracking (fun _ => digits) 82 stuckGrid).2 = stuckGrid ∧
    (solve_sudoku 82 stuckGrid).1 = false ∧
    (solve_sudoku 82 stuckGrid).2 = stuckGrid :=
  ⟨by decide,
   backtracking_failure_restores_grid.1 (fun _ => digits) 82 stuckGrid (by decide),
   by decide,
   backtracking_failure_restores_grid.2 82 stuckGrid (by decide)⟩

/-! ### Claim C5 -/

/-- C5: every grid returned by Fill mode (generate_full_grid, that is,
fill_grid_backtracking succeeding on the all-zero grid) is complete and
conflict-free: no cell is 0 and every row, column and 3×3 box is a
permutation of the digits 1..9; this holds for every candidate order whose
entries are digits (in particular for every shuffle of 1..9). -/
theorem fill_output_rows_cols_boxes_perm
    (order : Grid → List Nat)
    (horder : ∀ g2 v, v ∈ order g2 → v ∈ digits)
    (g : Grid) (hfill : generate_full_grid order = some g) :
    (∀ r, r < 9 → ∀ c, c < 9 → getCell g r c ≠ 0) ∧
    (∀ r, r < 9 → (rowList g r).Perm digits) ∧
    (∀ c, c < 9 → (colList g c).Perm digits) ∧
    (∀ br, br < 3 → ∀ bc, bc < 3 → (boxList g br bc).Perm digits) := by
  have hzero : GridInv zeroGrid := by decide
  unfold generate_full_grid at hfill
  cases hres : fill_grid_backtracking order 82 zeroGrid with
  | mk b g1 =>
    rw [hres] at hfill
    cases b with
    | false => simp at hfill
    | true =>
      simp only [Option.some.injEq] at hfill
      subst hfill
      have := fill_inv order horder 82 zeroGrid hzero
      rw [hres] at this
      obtain ⟨hinv, hcompF⟩ := this
      have hcomp : find_empty g1 = none := hcompF rfl
      refine ⟨(find_empty_eq_none_iff g1).mp hcomp, ?_, ?_, ?_⟩
      · exact fun r hr => complete_rowList_perm g1 hinv hcomp r hr
      · exact fun c hc => complete_colList_perm g1 hinv hcomp c hc
      · exact fun br hbr bc hbc => complete_boxList_perm g1 hinv hcomp br bc hbr hbc

theorem cyclicGrid_cells_digits :
    ∀ r, r < 9 → ∀ c, c < 9 → getCell cyclicGrid r c ∈ digits := by decide

/-- Witness for C5 at a concrete successful fill. -/
theorem fill_output_rows_cols_boxes_perm_witness :
    generate_full_grid (solOrder cyclicGrid) = some cyclicGrid ∧
    ((∀ r, r < 9 → ∀ c, c < 9 → getCell cyclicGrid r c ≠ 0) ∧
     (∀ r, r < 9 → (rowList cyclicGrid r).Perm digits) ∧
     (∀ c, c < 9 → (colList cyclicGrid c).Perm digits) ∧
     (∀ br, br < 3 → ∀ bc, bc < 3 → (boxList cyclicGrid br bc).Perm digits)) :=
  ⟨by decide,
   fill_output_rows_cols_boxes_perm (solOrder cyclicGrid)
     (solOrder_mem cyclicGrid cyclicGrid_cells_digits) cyclicGrid (by decide)⟩

/-! ### Claim C3: solve on inconsistent boards -/

theorem solveTry_preserves (step : Grid → Bool × Grid)
    (hstep : ∀ g2 r2 c2, getCell g2 r2 c2 ≠ 0 →
      getCell (step g2).2 r2 c2 = getCell g2 r2 c2)
    (hstep_restore : ∀ g2, (step g2).1 = false → (step g2).2 = g2)
    (g : Grid) (r c : Nat) (h0 : getCell g r c = 0) :
    ∀ nums r2 c2, getCell g r2 c2 ≠ 0 →
      getCell (solveTry step g r c nums).2 r2 c2 = getCell g r2 c2 := by
  intro nums
  induction nums with
  | nil => intro r2 c2 _; simp [solveTry]
  | cons num rest ih =>
    intro r2 c2 hnz
    have hne : r2 ≠ r ∨ c2 ≠ c := by
      by_contra h
      push_neg at h
      rw [h.1, h.2] at hnz
      exact hnz h0
    by_cases hv : Solver.is_valid g r c num = true
    · cases hs : step (setCell g r c num) with
      | mk b g1 =>
        cases b with
        | true =>
          have heq : solveTry step g r c (num :: rest) = (true, g1) := by
            simp [solveTry, hv, hs]
          rw [heq]
          have h2 : getCell (setCell g r c num) r2 c2 = getCell g r2 c2 :=
            getCell_setCell_ne g r c num r2 c2 hne
          have := hstep (setCell g r c num) r2 c2 (by rw [h2]; exact hnz)
          rw [hs] at this
          simpa [h2] using this
        | false =>
          have h1 : g1 = setCell g r c num := by
            have := hstep_restore (setCell g r c num) (by rw [hs])
            rwa [hs] at this
          have hrew : setCell g1 r c 0 = g := by
            rw [h1, setCell_setCell, setCell_zero_of_zero g r c h0]
          have heq : solveTry step g r c (num :: rest) =
              solveTry step (setCell g1 r c 0) r c rest := by
            simp [solveTry, hv, hs]
          rw [heq, hrew]
          exact ih r2 c2 hnz
    · have heq : solveTry step g r c (num :: rest) = solveTry step g r c rest := by
        simp [solveTry, hv]
      rw [heq]
      exact ih r2 c2 hnz

theorem solve_preserves_clues :
    ∀ fuel g r2 c2, getCell g r2 c2 ≠ 0 →
      getCell (solve_sudoku fuel g).2 r2 c2 = getCell g r2 c2 := by
  intro fuel
  induction fuel with
  | zero => intro g r2 c2 _; simp [solve_sudoku]
  | succ n ih =>
    intro g r2 c2 hnz
    cases hfe : Solver.find_empty_cell g with
    | none => simp [solve_sudoku, hfe]
    | some rc =>
      obtain ⟨r, c⟩ := rc
      obtain ⟨hr, hc, h0⟩ := find_empty_eq_some g r c hfe
      have heq : solve_sudoku (n + 1) g =
          solveTry (fun g2 => solve_sudoku n g2) g r c digits := by
        simp [solve_sudoku, hfe]
      rw [heq]
      exact solveTry_preserves _ (fun g2 r3 c3 h => ih g2 r3 c3 h)
        (fun g2 h => solve_restore n g2 h) g r c h0 digits r2 c2 hnz

/-- C3 counterexample: an inconsistent (misrecognized) board — cell (0,0)
misread as 2, conflicting with (0,1) in row 0 — on which solve_sudoku
returns true, not false: the claim fails as stated. -/
theorem solve_true_on_conflicted_grid :
    check_partial_ok conflictGrid = false ∧
    (solve_sudoku 82 conflictGrid).1 = true := by decide

/-- C3 amended: solve_sudoku attempts to solve whatever grid it receives
and completes without raising an exception (it is a total function in this
model), but it does not always report failure on an inconsistent board: it
never re-checks or modifies non-zero cells, so any clue conflict present at
entry is still present in the grid it returns, and it may return true. -/
theorem solve_keeps_conflicts (fuel : Nat) (g : Grid)
    (hconf : check_partial_ok g = false) :
    check_partial_ok (solve_sudoku fuel g).2 = false := by
  by_contra h
  rw [Bool.not_eq_false] at h
  obtain ⟨hrows, hcols, hbox⟩ := (check_partial_ok_iff _).mp h
  have hok : rowsOk g ∧ colsOk g ∧ boxesOk g := by
    refine ⟨?_, ?_, ?_⟩
    · intro r hr c1 h1 c2 h2 hne hnz
      have e1 := solve_preserves_clues fuel g r c1 hnz
      by_cases hz2 : getCell g r c2 = 0
      · rw [hz2]
        exact hnz
      · have e2 := solve_preserves_clues fuel g r c2 hz2
        intro he
        exact hrows r hr c1 h1 c2 h2 hne (by rw [e1]; exact hnz)
          (by rw [e1, e2, he])
    · intro c hc r1 h1 r2 h2 hne hnz
      have e1 := solve_preserves_clues fuel g r1 c hnz
      by_cases hz2 : getCell g r2 c = 0
      · rw [hz2]
        exact hnz
      · have e2 := solve_preserves_clues fuel g r2 c hz2
        intro he
        exact hcols c hc r1 h1 r2 h2 hne (by rw [e1]; exact hnz)
          (by rw [e1, e2, he])
    · intro br hbr bc hbc i1 hi1 j1 hj1 i2 hi2 j2 hj2 hne hnz
      have e1 := solve_preserves_clues fuel g (3 * br + i1) (3 * bc + j1) hnz
      by_cases hz2 : getCell g (3 * br + i2) (3 * bc + j2) = 0
      · rw [hz2]
        exact hnz
      · have e2 := solve_preserves_clues fuel g (3 * br + i2) (3 * bc + j2) hz2
        intro he
        exact hbox br hbr bc hbc i1 hi1 j1 hj1 i2 hi2 j2 hj2 hne
          (by rw [e1]; exact hnz) (by rw [e1, e2, he])
  rw [(check_partial_ok_iff g).mpr hok] at hconf
  simp at hconf

/-- Witness for the amended C3 at the concrete inconsistent board. -/
theorem solve_keeps_conflicts_witness :
    check_partial_ok conflictGrid = false ∧
    check_partial_ok (solve_sudoku 82 conflictGrid).2 = false :=
  ⟨by decide, solve_keeps_conflicts 82 conflictGrid (by decide)⟩

/-! ### Claim C4: the returned count against the limit -/

theorem countZeros_pos (g : Grid) (r c : Nat) (hwf : wfGrid g)
    (hr : r < 9) (hc : c < 9) (h0 : getCell g r c = 0) :
    1 ≤ countZeros g := by
  have hlen : r < g.length := by
    obtain ⟨h1, _⟩ := hwf
    omega
  have hclen : c < (g.getD r []).length := by
    rw [wf_row_length g r hwf hr]
    omega
  have hmem : (0 : Nat) ∈ g.getD r [] := by
    have := list_getD_mem (g.getD r []) c 0 hclen
    unfold getCell at h0
    rwa [h0] at this
  have hcnt : 1 ≤ List.countP (fun x => x == 0) (g.getD r []) := by
    rw [Nat.one_le_iff_ne_zero]
    intro h
    have := List.countP_eq_zero.mp h 0 hmem
    simp at this
  have hrowmem : List.countP (fun x => x == 0) (g.getD r []) ∈
      List.map (fun row => List.countP (fun v => v == 0) row) g :=
    List.mem_map_of_mem _ (list_getD_mem g r [] hlen)
  unfold countZeros
  calc 1 ≤ List.countP (fun x => x == 0) (g.getD r []) := hcnt
    _ ≤ _ := List.single_le_sum (fun x _ => Nat.zero_le x) _ hrowmem

theorem countTry_bound (step : Grid → Nat × Grid) (g : Grid)
    (r c limit : Nat) (hwf : wfGrid g) (h0 : getCell g r c = 0)
    (hr : r < 9) (hc : c < 9) (hl : 1 ≤ limit)
    (hstep : ∀ v, v ∈ digits →
      (step (setCell g r c v)).1 ≤ (limit - 1) * (countZeros g - 1) + 1)
    (hrestore : ∀ g2, (step g2).2 = g2) :
    ∀ nums count, (∀ v ∈ nums, v ∈ digits) → count ≤ limit - 1 →
      (countTry step g r c limit count nums).1 ≤
        (limit - 1) * countZeros g + 1 := by
  have hz : 1 ≤ countZeros g := countZeros_pos g r c hwf hr hc h0
  have hmul : (limit - 1) * countZeros g =
      (limit - 1) * (countZeros g - 1) + (limit - 1) := by
    obtain ⟨m, hm⟩ : ∃ m, countZeros g = m + 1 := ⟨countZeros g - 1, by omega⟩
    rw [hm, Nat.add_sub_cancel, Nat.mul_add, Nat.mul_one]
  intro nums
  induction nums with
  | nil =>
    intro count _ hcount
    simp only [countTry]
    omega
  | cons num rest ih =>
    intro count hmem hcount
    by_cases hv : is_valid g r c num = true
    · cases hs : step (setCell g r c num) with
      | mk k g1 =>
        have hk : k ≤ (limit - 1) * (countZeros g - 1) + 1 := by
          have := hstep num (hmem num (List.mem_cons_self _ _))
          rwa [hs] at this
        have h1 : g1 = setCell g r c num := by
          have := hrestore (setCell g r c num)
          rwa [hs] at this
        have hrew : setCell g1 r c 0 = g := by
          rw [h1, setCell_setCell, setCell_zero_of_zero g r c h0]
        by_cases hle : limit ≤ count + k
        · have heq : countTry step g r c limit count (num :: rest) =
              (count + k, setCell g1 r c 0) := by
            simp [countTry, hv, hs, hle]
          rw [heq]
          simp only []
          omega
        · have heq : countTry step g r c limit count (num :: rest) =
              countTry step (setCell g1 r c 0) r c limit (count + k) rest := by
            simp [countTry, hv, hs, hle]
          rw [heq, hrew]
          exact ih (count + k) (fun v hm => hmem v (List.mem_cons_of_mem _ hm))
            (by omega)
    · have heq : countTry step g r c limit count (num :: rest) =
          countTry step g r c limit count rest := by
        simp [countTry, hv]
      rw [heq]
      exact ih count (fun v hm => hmem v (List.mem_cons_of_mem _ hm)) hcount

theorem count_solutions_bound (limit : Nat) (hl : 1 ≤ limit) :
    ∀ fuel g, wfGrid g →
      (count_solutions fuel g limit).1 ≤ (limit - 1) * countZeros g + 1 := by
  intro fuel
  induction fuel with
  | zero =>
    intro g _
    simp [count_solutions]
  | succ n ih =>
    intro g hwf
    cases hfe : find_empty g with
    | none =>
      simp [count_solutions, hfe]
    | some rc =>
      obtain ⟨r, c⟩ := rc
      obtain ⟨hr, hc, h0⟩ := find_empty_eq_some g r c hfe
      have heq : count_solutions (n + 1) g limit =
          countTry (fun g2 => count_solutions n g2 limit) g r c limit 0 digits := by
        simp [count_solutions, hfe]
      rw [heq]
      refine countTry_bound _ g r c limit hwf h0 hr hc hl ?_
        (fun g2 => count_restore n g2 limit) digits 0 (fun v hv => hv) (by omega)
      intro v hv
      have hwf2 : wfGrid (setCell g r c v) := wfGrid_setCell g r c v hwf
      have hvne : v ≠ 0 := by
        rw [mem_digits_iff] at hv
        omega
      have hcz : countZeros (setCell g r c v) + 1 = countZeros g :=
        countZeros_setCell g r c v hwf hr hc h0 hvne
      have := ih (setCell g r c v) hwf2
      have hez : countZeros (setCell g r c v) = countZeros g - 1 := by omega
      rwa [hez] at this

/-- C4 counterexample: with limit 2, count_solutions returns 3 on a
concrete well-formed conflict-free puzzle: the first digit branch at (0,0)
contributes one solution (1 < 2, so the loop continues), the second
contributes two, and 1 + 2 = 3 > 2 is returned. -/
theorem count_solutions_exceeds_limit :
    (count_solutions 82 puzzle3Grid 2).1 = 3 ∧
    ¬((count_solutions 82 puzzle3Grid 2).1 ≤ 2) ∧
    wfGrid puzzle3Grid ∧ check_partial_ok puzzle3Grid = true := by decide

/-- C4 amended: the value returned by count_solutions need not be at most
limit: when the count reaches limit the routine does return immediately,
but the final addition can overshoot, so the correct bound for a
well-formed grid with limit ≥ 1 is (limit - 1) · (number of empty cells)
+ 1; the returned value can strictly exceed limit (it is 3 on
puzzle3Grid with limit 2). -/
theorem count_solutions_bounded_by_empties (limit fuel : Nat) (g : Grid)
    (hl : 1 ≤ limit) (hwf : wfGrid g) :
    (count_solutions fuel g limit).1 ≤ (limit - 1) * countZeros g + 1 :=
  count_solutions_bound limit hl fuel g hwf

/-- Witness for the amended C4 at the concrete overshooting input. -/
theorem count_solutions_bounded_by_empties_witness :
    1 ≤ 2 ∧ wfGrid puzzle3Grid ∧
    (count_solutions 82 puzzle3Grid 2).1 ≤ (2 - 1) * countZeros puzzle3Grid + 1 :=
  ⟨by decide, by decide,
   count_solutions_bounded_by_empties 2 82 puzzle3Grid (by decide) (by decide)⟩

/-! ### The removal loop of generate -/

theorem digLoop_revert_eq (p : Grid) (r c : Nat) :
    setCell (setCell p r c 0) r c (getCell p r c) = p := by
  rw [setCell_setCell, setCell_getCell_self]

theorem count_complete (g : Grid) (hcomp : find_empty g = none)
    (n limit : Nat) : count_solutions (n + 1) g limit = (1, g) := by
  simp [count_solutions, hcomp]

theorem digLoop_count_one :
    ∀ cells maxR removed p, (count_solutions 82 p 2).1 = 1 →
      (count_solutions 82 (digLoop cells maxR removed p) 2).1 = 1 := by
  intro cells
  induction cells with
  | nil => intro maxR removed p h; simpa [digLoop] using h
  | cons rc rest ih =>
    intro maxR removed p h
    obtain ⟨r, c⟩ := rc
    by_cases hbr : maxR ≤ (removed : Int)
    · simpa [digLoop, hbr] using h
    · by_cases hk : (count_solutions 82 (setCell p r c 0) 2).1 ≠ 1
      · have heq : digLoop ((r, c) :: rest) maxR removed p =
            digLoop rest maxR removed (setCell (setCell p r c 0) r c (getCell p r c)) := by
          simp [digLoop, hbr, hk]
        rw [heq, digLoop_revert_eq]
        exact ih maxR removed p h
      · push_neg at hk
        have heq : digLoop ((r, c) :: rest) maxR removed p =
            digLoop rest maxR (removed + 1) (setCell p r c 0) := by
          simp [digLoop, hbr, hk]
        rw [heq]
        exact ih maxR (removed + 1) (setCell p r c 0) hk

theorem digLoop_wf :
    ∀ cells maxR removed p, wfGrid p → wfGrid (digLoop cells maxR removed p) := by
  intro cells
  induction cells with
  | nil => intro maxR removed p h; simpa [digLoop] using h
  | cons rc rest ih =>
    intro maxR removed p h
    obtain ⟨r, c⟩ := rc
    by_cases hbr : maxR ≤ (removed : Int)
    · simpa [digLoop, hbr] using h
    · by_cases hk : (count_solutions 82 (setCell p r c 0) 2).1 ≠ 1
      · have heq : digLoop ((r, c) :: rest) maxR removed p =
            digLoop rest maxR removed (setCell (setCell p r c 0) r c (getCell p r c)) := by
          simp [digLoop, hbr, hk]
        rw [heq, digLoop_revert_eq]
        exact ih maxR removed p h
      · push_neg at hk
        have heq : digLoop ((r, c) :: rest) maxR removed p =
            digLoop rest maxR (removed + 1) (setCell p r c 0) := by
          simp [digLoop, hbr, hk]
        rw [heq]
        exact ih maxR (removed + 1) _ (wfGrid_setCell p r c 0 h)

theorem digLoop_blanks_only (full : Grid) :
    ∀ cells maxR removed p,
      (∀ r c, getCell p r c = 0 ∨ getCell p r c = getCell full r c) →
      ∀ r c, getCell (digLoop cells maxR removed p) r c = 0 ∨
        getCell (digLoop cells maxR removed p) r c = getCell full r c := by
  intro cells
  induction cells with
  | nil => intro maxR removed p h; simpa [digLoop] using h
  | cons rc rest ih =>
    intro maxR removed p h
    obtain ⟨r, c⟩ := rc
    by_cases hbr : maxR ≤ (removed : Int)
    · simpa [digLoop, hbr] using h
    · by_cases hk : (count_solutions 82 (setCell p r c 0) 2).1 ≠ 1
      · have heq : digLoop ((r, c) :: rest) maxR removed p =
            digLoop rest maxR removed (setCell (setCell p r c 0) r c (getCell p r c)) := by
          simp [digLoop, hbr, hk]
        rw [heq, digLoop_revert_eq]
        exact ih maxR removed p h
      · push_neg at hk
        have heq : digLoop ((r, c) :: rest) maxR removed p =
            digLoop rest maxR (removed + 1) (setCell p r c 0) := by
          simp [digLoop, hbr, hk]
        rw [heq]
        refine ih maxR (removed + 1) _ ?_
        intro r2 c2
        by_cases hne : r2 ≠ r ∨ c2 ≠ c
        · rw [getCell_setCell_ne p r c 0 r2 c2 hne]
          exact h r2 c2
        · push_neg at hne
          obtain ⟨e1, e2⟩ := hne
          subst e1
          subst e2
          by_cases hrl : r2 < p.length
          · by_cases hcl : c2 < (p.getD r2 []).length
            · left
              exact getCell_setCell_self p r2 c2 0 hrl hcl
            · rw [setCell_oob_col p r2 c2 0 (by omega)]
              exact h r2 c2
          · rw [setCell_oob p r2 c2 0 (by omega)]
            exact h r2 c2

theorem count_clues_setCell_zero (p : Grid) (r c : Nat) :
    count_clues (setCell p r c 0) ≤ count_clues p := by
  by_cases hrl : r < p.length
  · by_cases hcl : c < (p.getD r []).length
    · unfold count_clues setCell
      have hsum := list_sum_map_set (fun row => List.countP (fun v => v != 0) row)
        p r ((p.getD r []).set c 0) hrl
      simp only [] at hsum
      have hcnt := list_countP_set (fun v => v != 0) (p.getD r []) c 0 hcl
      simp only [bne_self_eq_false, Bool.false_eq_true, if_false] at hcnt
      omega
    · rw [setCell_oob_col p r c 0 (by omega)]
  · rw [setCell_oob p r c 0 (by omega)]

theorem digLoop_clues_le :
    ∀ cells maxR removed p, count_clues (digLoop cells maxR removed p) ≤ count_clues p := by
  intro cells
  induction cells with
  | nil => intro maxR removed p; simp [digLoop]
  | cons rc rest ih =>
    intro maxR removed p
    obtain ⟨r, c⟩ := rc
    by_cases hbr : maxR ≤ (removed : Int)
    · simp [digLoop, hbr]
    · by_cases hk : (count_solutions 82 (setCell p r c 0) 2).1 ≠ 1
      · have heq : digLoop ((r, c) :: rest) maxR removed p =
            digLoop rest maxR removed (setCell (setCell p r c 0) r c (getCell p r c)) := by
          simp [digLoop, hbr, hk]
        rw [heq, digLoop_revert_eq]
        exact ih maxR removed p
      · push_neg at hk
        have heq : digLoop ((r, c) :: rest) maxR removed p =
            digLoop rest maxR (removed + 1) (setCell p r c 0) := by
          simp [digLoop, hbr, hk]
        rw [heq]
        calc count_clues (digLoop rest maxR (removed + 1) (setCell p r c 0)) ≤
              count_clues (setCell p r c 0) := ih maxR (removed + 1) _
          _ ≤ count_clues p := count_clues_setCell_zero p r c

theorem digLoop_mono :
    ∀ cells removed p maxR1 maxR2, maxR1 ≤ maxR2 →
      count_clues (digLoop cells maxR2 removed p) ≤
        count_clues (digLoop cells maxR1 removed p) := by
  intro cells
  induction cells with
  | nil => intro removed p m1 m2 _; simp [digLoop]
  | cons rc rest ih =>
    intro removed p m1 m2 hm
    obtain ⟨r, c⟩ := rc
    by_cases hb2 : m2 ≤ (removed : Int)
    · have hb1 : m1 ≤ (removed : Int) := le_trans hm hb2
      simp [digLoop, hb1, hb2]
    · by_cases hb1 : m1 ≤ (removed : Int)
      · have h1 : digLoop ((r, c) :: rest) m1 removed p = p := by
          simp [digLoop, hb1]
        rw [h1]
        by_cases hk : (count_solutions 82 (setCell p r c 0) 2).1 ≠ 1
        · have h2 : digLoop ((r, c) :: rest) m2 removed p =
              digLoop rest m2 removed (setCell (setCell p r c 0) r c (getCell p r c)) := by
            simp [digLoop, hb2, hk]
          rw [h2, digLoop_revert_eq]
          exact digLoop_clues_le rest m2 removed p
        · push_neg at hk
          have h2 : digLoop ((r, c) :: rest) m2 removed p =
              digLoop rest m2 (removed + 1) (setCell p r c 0) := by
            simp [digLoop, hb2, hk]
          rw [h2]
          calc count_clues (digLoop rest m2 (removed + 1) (setCell p r c 0)) ≤
                count_clues (setCell p r c 0) := digLoop_clues_le rest m2 _ _
            _ ≤ count_clues p := count_clues_setCell_zero p r c
      · by_cases hk : (count_solutions 82 (setCell p r c 0) 2).1 ≠ 1
        · have h1 : digLoop ((r, c) :: rest) m1 removed p =
              digLoop rest m1 removed (setCell (setCell p r c 0) r c (getCell p r c)) := by
            simp [digLoop, hb1, hk]
          have h2 : digLoop ((r, c) :: rest) m2 removed p =
              digLoop rest m2 removed (setCell (setCell p r c 0) r c (getCell p r c)) := by
            simp [digLoop, hb2, hk]
          rw [h1, h2, digLoop_revert_eq]
          exact ih removed p m1 m2 hm
        · push_neg at hk
          have h1 : digLoop ((r, c) :: rest) m1 removed p =
              digLoop rest m1 (removed + 1) (setCell p r c 0) := by
            simp [digLoop, hb1, hk]
          have h2 : digLoop ((r, c) :: rest) m2 removed p =
              digLoop rest m2 (removed + 1) (setCell p r c 0) := by
            simp [digLoop, hb2, hk]
          rw [h1, h2]
          exact ih (removed + 1) _ m1 m2 hm

/-! ### Claim C1 -/

/-- All 81 coordinates in row-major order (one possible removal order). -/
def allCells : List (Nat × Nat) :=
  (List.range 9).flatMap (fun r => (List.range 9).map (fun c => (r, c)))

/-- C1: every puzzle returned by generate (the uniqueness-preserving
digging generator) has exactly one solution as measured by the code's own
counter: count_solutions with limit 2 (on a copy, which the pure model
makes implicit) returns exactly 1, for every removal fraction, every
candidate order drawn from the digits and every removal order. -/
theorem generate_puzzle_unique_solution
    (order : Grid → List Nat) (horder : ∀ g2 v, v ∈ order g2 → v ∈ digits)
    (cells : List (Nat × Nat)) (rate : ℚ) (puzzle : Grid)
    (hgen : generate order cells rate = some puzzle) :
    (count_solutions 82 puzzle 2).1 = 1 := by
  unfold generate at hgen
  cases hres : fill_grid_backtracking order 82 zeroGrid with
  | mk b full =>
    rw [hres] at hgen
    cases b with
    | false => simp at hgen
    | true =>
      simp only [Option.some.injEq] at hgen
      have hzero : GridInv zeroGrid := by decide
      have := fill_inv order horder 82 zeroGrid hzero
      rw [hres] at this
      have hcomp : find_empty full = none := this.2 rfl
      have hfull1 : (count_solutions 82 full 2).1 = 1 := by
        rw [show (82 : Nat) = 81 + 1 from rfl, count_complete full hcomp 81 2]
      rw [← hgen]
      exact digLoop_count_one cells _ 0 full hfull1

/-- The fill with the solution-guided order reproduces cyclicGrid. -/
theorem fill_eval :
    fill_grid_backtracking (solOrder cyclicGrid) 82 zeroGrid =
      (true, cyclicGrid) := by decide

theorem generate_eval (rate : ℚ) (m : Int)
    (hm : Rat.floor ((81 : ℚ) * rate) = m) :
    generate (solOrder cyclicGrid) allCells rate =
      some (digLoop allCells m 0 cyclicGrid) := by
  unfold generate
  rw [fill_eval]
  simp only []
  rw [hm]

theorem floor_81_inv : Rat.floor ((81 : ℚ) * (1 / 81)) = 1 := by
  have h : (81 : ℚ) * (1 / 81) = 1 := by norm_num
  rw [h]
  decide

theorem floor_81_zero : Rat.floor ((81 : ℚ) * 0) = 0 := by
  have h : (81 : ℚ) * 0 = 0 := by norm_num
  rw [h]
  decide

theorem generate_eval_inv :
    generate (solOrder cyclicGrid) allCells (1 / 81) =
      some (setCell cyclicGrid 0 0 0) := by
  rw [generate_eval (1 / 81) 1 floor_81_inv]
  decide

theorem generate_eval_zero :
    generate (solOrder cyclicGrid) allCells 0 = some cyclicGrid := by
  rw [generate_eval 0 0 floor_81_zero]
  decide

/-- Witness for C1: a concrete run removing one cell. -/
theorem generate_puzzle_unique_solution_witness :
    generate (solOrder cyclicGrid) allCells (1 / 81) =
      some (setCell cyclicGrid 0 0 0) ∧
    (count_solutions 82 (setCell cyclicGrid 0 0 0) 2).1 = 1 :=
  ⟨generate_eval_inv,
   generate_puzzle_unique_solution (solOrder cyclicGrid)
     (solOrder_mem cyclicGrid cyclicGrid_cells_digits) allCells (1 / 81)
     (setCell cyclicGrid 0 0 0) generate_eval_inv⟩

/-! ### Claim C8 -/

/-- C8: with the random source fixed (the same candidate-order function for
the fill and the same shuffled coordinate list for removal), the clue count
of generate is antitone in the removal fraction: a larger
targetRemovalFraction never yields more clues. -/
theorem generate_clue_count_antitone
    (order : Grid → List Nat) (cells : List (Nat × Nat))
    (q1 q2 : ℚ) (p1 p2 : Grid) (hq : q1 ≤ q2)
    (h1 : generate order cells q1 = some p1)
    (h2 : generate order cells q2 = some p2) :
    count_clues p2 ≤ count_clues p1 := by
  unfold generate at h1 h2
  cases hres : fill_grid_backtracking order 82 zeroGrid with
  | mk b full =>
    rw [hres] at h1 h2
    cases b with
    | false => simp at h1
    | true =>
      simp only [Option.some.injEq] at h1 h2
      rw [← h1, ← h2]
      refine digLoop_mono cells 0 full _ _ ?_
      have hmul : (81 : ℚ) * q1 ≤ 81 * q2 := by nlinarith
      refine Rat.le_floor.mpr (le_trans ?_ hmul)
      exact Rat.le_floor.mp (le_refl _)

/-- Witness for C8: fractions 0 and 1/81 with the same random choices. -/
theorem generate_clue_count_antitone_witness :
    (0 : ℚ) ≤ 1 / 81 ∧
    generate (solOrder cyclicGrid) allCells 0 = some cyclicGrid ∧
    generate (solOrder cyclicGrid) allCells (1 / 81) =
      some (setCell cyclicGrid 0 0 0) ∧
    count_clues (setCell cyclicGrid 0 0 0) ≤ count_clues cyclicGrid :=
  ⟨by norm_num, generate_eval_zero, generate_eval_inv,
   generate_clue_count_antitone (solOrder cyclicGrid) allCells 0 (1 / 81)
     cyclicGrid (setCell cyclicGrid 0 0 0) (by norm_num) generate_eval_zero
     generate_eval_inv⟩

/-! ### Claim C7: single-hole round trip -/

theorem generate_full_grid_inv (order : Grid → List Nat)
    (horder : ∀ g2 v, v ∈ order g2 → v ∈ digits)
    (g : Grid) (hfill : generate_full_grid order = some g) :
    GridInv g ∧ find_empty g = none := by
  have hzero : GridInv zeroGrid := by decide
  unfold generate_full_grid at hfill
  cases hres : fill_grid_backtracking order 82 zeroGrid with
  | mk b g1 =>
    rw [hres] at hfill
    cases b with
    | false => simp at hfill
    | true =>
      simp only [Option.some.injEq] at hfill
      subst hfill
      have := fill_inv order horder 82 zeroGrid hzero
      rw [hres] at this
      exact ⟨this.1, this.2 rfl⟩

theorem solveTry_skip (step : Grid → Bool × Grid) (g : Grid) (r c : Nat) :
    ∀ ws rest, (∀ w ∈ ws, Solver.is_valid g r c w = false) →
      solveTry step g r c (ws ++ rest) = solveTry step g r c rest := by
  intro ws
  induction ws with
  | nil => intro rest _; simp
  | cons w ws ih =>
    intro rest hinv
    have hw : Solver.is_valid g r c w = false := hinv w (List.mem_cons_self _ _)
    have heq : solveTry step g r c (w :: (ws ++ rest)) =
        solveTry step g r c (ws ++ rest) := by
      simp [solveTry, hw]
    simpa [heq] using ih rest (fun w2 h2 => hinv w2 (List.mem_cons_of_mem _ h2))

theorem solve_complete (g : Grid) (hcomp : find_empty g = none) (n : Nat) :
    solve_sudoku (n + 1) g = (true, g) := by
  have : Solver.find_empty_cell g = none := hcomp
  simp [solve_sudoku, this]

theorem solve_sudoku_succ_eq (n : Nat) (g : Grid) :
    solve_sudoku (n + 1) g =
      match Solver.find_empty_cell g with
      | none => (true, g)
      | some (r, c) => solveTry (fun g2 => solve_sudoku n g2) g r c digits := rfl

theorem row_value_present (g : Grid) (hinv : GridInv g)
    (hcomp : find_empty g = none) (r w : Nat) (hr : r < 9) (hw : w ∈ digits) :
    ∃ c2, c2 < 9 ∧ getCell g r c2 = w := by
  have hperm := complete_rowList_perm g hinv hcomp r hr
  have hmem : w ∈ rowList g r := hperm.mem_iff.mpr hw
  rw [rowList_eq_map g r hinv.1 hr] at hmem
  rw [List.mem_map] at hmem
  obtain ⟨c2, hc2, he⟩ := hmem
  exact ⟨c2, List.mem_range.mp hc2, he⟩

/-- C7: single-hole round trip: for every grid produced by Fill mode,
blanking any one cell and running solve_sudoku returns true and restores
the grid exactly, in particular that cell's original value. -/
theorem single_hole_round_trip (order : Grid → List Nat)
    (horder : ∀ g2 v, v ∈ order g2 → v ∈ digits)
    (g : Grid) (hfill : generate_full_grid order = some g)
    (r c : Nat) (hr : r < 9) (hc : c < 9) :
    solve_sudoku 82 (setCell g r c 0) = (true, g) := by
  obtain ⟨hinv, hcomp⟩ := generate_full_grid_inv order horder g hfill
  obtain ⟨hwf, hvals, hrows, hcols, hbox⟩ := hinv
  have hnz := (find_empty_eq_none_iff g).mp hcomp
  have hlen : r < g.length := by
    obtain ⟨h1, _⟩ := hwf
    omega
  have hclen : c < (g.getD r []).length := by
    rw [wf_row_length g r hwf hr]
    omega
  set v0 := getCell g r c with hv0
  have hv0d : v0 ∈ digits := complete_cell_mem_digits g ⟨hwf, hvals, hrows, hcols, hbox⟩ hcomp r c hr hc
  have hv0b : 1 ≤ v0 ∧ v0 ≤ 9 := (mem_digits_iff v0).mp hv0d
  set b := setCell g r c 0 with hb
  have hbc := getCell_setCell_cases g r c 0
  have hbrc : getCell b r c = 0 := by
    rw [hb, hbc r c hlen hclen, if_pos ⟨rfl, rfl⟩]
  have hbne : ∀ r2 c2, ¬(r2 = r ∧ c2 = c) → getCell b r2 c2 = getCell g r2 c2 := by
    intro r2 c2 hne
    rw [hb, hbc r2 c2 hlen hclen, if_neg hne]
  -- the blanked cell is the unique empty cell, so find_empty returns it
  have hfe : find_empty b = some (r, c) := by
    cases hres : find_empty b with
    | none =>
      exfalso
      exact (find_empty_eq_none_iff b).mp hres r hr c hc hbrc
    | some rc =>
      obtain ⟨r1, c1⟩ := rc
      obtain ⟨hr1, hc1, hz1⟩ := find_empty_eq_some b r1 c1 hres
      by_cases he : r1 = r ∧ c1 = c
      · rw [he.1, he.2]
      · exfalso
        rw [hbne r1 c1 he] at hz1
        exact hnz r1 hr1 c1 hc1 hz1
  -- placing the original value back is legal
  have hvalid : Solver.is_valid b r c v0 = true := by
    rw [solver_is_valid_iff]
    refine ⟨?_, ?_, ?_⟩
    · intro c2 hc2
      by_cases he : c2 = c
      · rw [he, hbrc]
        omega
      · rw [hbne r c2 (fun hh => he hh.2)]
        intro hcontr
        exact hrows r hr c hc c2 hc2 (fun hh => he hh.symm) (by omega)
          hcontr.symm
    · intro r2 hr2
      by_cases he : r2 = r
      · rw [he, hbrc]
        omega
      · rw [hbne r2 c (fun hh => he hh.1)]
        intro hcontr
        exact hcols c hc r hr r2 hr2 (fun hh => he hh.symm) (by omega)
          hcontr.symm
    · intro i hi j hj
      by_cases he : r / 3 * 3 + i = r ∧ c / 3 * 3 + j = c
      · rw [he.1, he.2, hbrc]
        omega
      · rw [hbne _ _ he]
        intro hcontr
        refine hbox (r / 3) (by omega) (c / 3) (by omega)
          (r % 3) (by omega) (c % 3) (by omega) i hi j hj ?_ (by
            have e1 : 3 * (r / 3) + r % 3 = r := by omega
            have e2 : 3 * (c / 3) + c % 3 = c := by omega
            rw [e1, e2]
            omega) ?_
        · intro ⟨e1, e2⟩
          exact he ⟨by omega, by omega⟩
        · have e1 : 3 * (r / 3) + r % 3 = r := by omega
          have e2 : 3 * (c / 3) + c % 3 = c := by omega
          have e3 : 3 * (r / 3) + i = r / 3 * 3 + i := by omega
          have e4 : 3 * (c / 3) + j = c / 3 * 3 + j := by omega
          rw [e1, e2, e3, e4]
          exact hcontr.symm
  -- smaller digits are all blocked by the row
  have hprefix : ∀ w, w ∈ List.range' 1 (v0 - 1) → Solver.is_valid b r c w = false := by
    intro w hwmem
    rw [List.mem_range'_1] at hwmem
    have hwd : w ∈ digits := by
      rw [mem_digits_iff]
      omega
    obtain ⟨c2, hc2, hval⟩ := row_value_present g
      ⟨hwf, hvals, hrows, hcols, hbox⟩ hcomp r w hr hwd
    have hne : c2 ≠ c := by
      intro he
      rw [he] at hval
      omega
    rw [Bool.eq_false_iff]
    intro hcontr
    obtain ⟨hrowhit, _, _⟩ := (solver_is_valid_iff b r c w).mp hcontr
    exact hrowhit c2 hc2 (by rw [hbne r c2 (fun hh => hne hh.2)]; exact hval)
  -- assemble the run
  have hdig : digits = List.range' 1 (v0 - 1) ++ (v0 :: List.range' (v0 + 1) (9 - v0)) := by
    calc digits = List.range' 1 9 := by decide
      _ = List.range' 1 ((9 - v0 + 1) + (v0 - 1)) := by
            congr 1
            omega
      _ = List.range' 1 (v0 - 1) ++ List.range' (1 + 1 * (v0 - 1)) (9 - v0 + 1) :=
            (List.range'_append 1 (v0 - 1) (9 - v0 + 1) 1).symm
      _ = List.range' 1 (v0 - 1) ++ List.range' v0 (9 - v0 + 1) := by
            rw [show 1 + 1 * (v0 - 1) = v0 from by omega]
      _ = List.range' 1 (v0 - 1) ++ (v0 :: List.range' (v0 + 1) (9 - v0)) := by
            rw [List.range'_succ]
  have hsetv0 : setCell b r c v0 = g := by
    rw [hb, setCell_setCell, hv0, setCell_getCell_self]
  have hfe2 : Solver.find_empty_cell b = some (r, c) := hfe
  have heq1 : solve_sudoku 82 b =
      solveTry (fun g2 => solve_sudoku 81 g2) b r c digits := by
    rw [show (82 : Nat) = 81 + 1 from rfl, solve_sudoku_succ_eq, hfe2]
  rw [heq1, hdig, solveTry_skip _ b r c _ _ hprefix]
  have heq2 : solveTry (fun g2 => solve_sudoku 81 g2) b r c
      (v0 :: List.range' (v0 + 1) (9 - v0)) =
      (true, (solve_sudoku 81 (setCell b r c v0)).2) := by
    have hstep : solve_sudoku 81 (setCell b r c v0) = (true, g) := by
      rw [hsetv0]
      exact solve_complete g hcomp 80
    simp [solveTry, hvalid, hstep]
  rw [heq2, hsetv0, solve_complete g hcomp 80]

theorem generate_full_grid_eval :
    generate_full_grid (solOrder cyclicGrid) = some cyclicGrid := by
  unfold generate_full_grid
  rw [fill_eval]

/-- Witness for C7: blank cell (0,0) of a concrete Fill-mode output. -/
theorem single_hole_round_trip_witness :
    generate_full_grid (solOrder cyclicGrid) = some cyclicGrid ∧
    solve_sudoku 82 (setCell cyclicGrid 0 0 0) = (true, cyclicGrid) :=
  ⟨generate_full_grid_eval,
   single_hole_round_trip (solOrder cyclicGrid)
     (solOrder_mem cyclicGrid cyclicGrid_cells_digits) cyclicGrid
     generate_full_grid_eval 0 0 (by decide) (by decide)⟩

/-! ### The mathematical solution set of a grid -/

/-- A complete grid as a function; entry e encodes the digit e + 1. -/
abbrev GridFun := Fin 9 → Fin 9 → Fin 9

/-- The digit written at (r, c). -/
def fVal (f : GridFun) (r c : Fin 9) : Nat := (f r c : Nat) + 1

/-- The Sudoku constraint on a complete grid: no repeated digit in any
row, column or 3×3 box. -/
def conflictFreeF (f : GridFun) : Prop :=
  (∀ r c1 c2 : Fin 9, c1 ≠ c2 → f r c1 ≠ f r c2) ∧
  (∀ c r1 r2 : Fin 9, r1 ≠ r2 → f r1 c ≠ f r2 c) ∧
  (∀ r1 c1 r2 c2 : Fin 9, (r1 : Nat) / 3 = (r2 : Nat) / 3 →
    (c1 : Nat) / 3 = (c2 : Nat) / 3 → ¬(r1 = r2 ∧ c1 = c2) → f r1 c1 ≠ f r2 c2)

/-- f is a solution of the puzzle g: it is conflict-free and agrees with
every non-zero (clue) cell of g. -/
def isSolutionOf (f : GridFun) (g : Grid) : Prop :=
  conflictFreeF f ∧
  ∀ r c : Fin 9, getCell g (r : Nat) (c : Nat) ≠ 0 →
    fVal f r c = getCell g (r : Nat) (c : Nat)

instance (f : GridFun) : Decidable (conflictFreeF f) := by
  unfold conflictFreeF
  infer_instance

instance (f : GridFun) (g : Grid) : Decidable (isSolutionOf f g) := by
  unfold isSolutionOf
  infer_instance

/-- The set of solutions of g: the complete conflict-free grids that agree
with g on its non-zero cells. -/
def SolutionSet (g : Grid) : Finset GridFun :=
  Finset.univ.filter (fun f => isSolutionOf f g)

theorem mem_SolutionSet (f : GridFun) (g : Grid) :
    f ∈ SolutionSet g ↔ isSolutionOf f g := by
  unfold SolutionSet
  simp

/-- The functional reading of a complete grid. -/
def gridFun (g : Grid) : GridFun :=
  fun r c => ⟨(getCell g (r : Nat) (c : Nat) - 1) % 9, Nat.mod_lt _ (by norm_num)⟩

theorem gridFun_fVal (g : Grid) (r c : Fin 9)
    (h1 : 1 ≤ getCell g (r : Nat) (c : Nat))
    (h9 : getCell g (r : Nat) (c : Nat) ≤ 9) :
    fVal (gridFun g) r c = getCell g (r : Nat) (c : Nat) := by
  unfold fVal gridFun
  simp only []
  omega

theorem complete_cell_bounds (g : Grid) (hvals : valsLe9 g)
    (hcomp : find_empty g = none) (r c : Fin 9) :
    1 ≤ getCell g (r : Nat) (c : Nat) ∧ getCell g (r : Nat) (c : Nat) ≤ 9 := by
  have h1 := (find_empty_eq_none_iff g).mp hcomp (r : Nat) r.isLt (c : Nat) c.isLt
  have h2 := hvals (r : Nat) r.isLt (c : Nat) c.isLt
  omega

theorem gridFun_isSolution (g : Grid) (hvals : valsLe9 g)
    (hrows : rowsOk g) (hcols : colsOk g) (hbox : boxesOk g)
    (hcomp : find_empty g = none) : isSolutionOf (gridFun g) g := by
  have hbnd := complete_cell_bounds g hvals hcomp
  have hfv : ∀ r c : Fin 9, fVal (gridFun g) r c = getCell g (r : Nat) (c : Nat) :=
    fun r c => gridFun_fVal g r c (hbnd r c).1 (hbnd r c).2
  have hinj : ∀ r1 c1 r2 c2 : Fin 9,
      gridFun g r1 c1 = gridFun g r2 c2 →
      getCell g (r1 : Nat) (c1 : Nat) = getCell g (r2 : Nat) (c2 : Nat) := by
    intro r1 c1 r2 c2 he
    have h1 := hfv r1 c1
    have h2 := hfv r2 c2
    unfold fVal at h1 h2
    rw [he] at h1
    omega
  refine ⟨⟨?_, ?_, ?_⟩, ?_⟩
  · intro r c1 c2 hne he
    refine hrows (r : Nat) r.isLt (c1 : Nat) c1.isLt (c2 : Nat) c2.isLt
      (fun hh => hne (Fin.ext hh)) (by have := (hbnd r c1).1; omega) ?_
    exact hinj r c1 r c2 he
  · intro c r1 r2 hne he
    refine hcols (c : Nat) c.isLt (r1 : Nat) r1.isLt (r2 : Nat) r2.isLt
      (fun hh => hne (Fin.ext hh)) (by have := (hbnd r1 c).1; omega) ?_
    exact hinj r1 c r2 c he
  · intro r1 c1 r2 c2 hbr hbc hne he
    have e1 : 3 * ((r1 : Nat) / 3) + (r1 : Nat) % 3 = (r1 : Nat) := by omega
    have e2 : 3 * ((c1 : Nat) / 3) + (c1 : Nat) % 3 = (c1 : Nat) := by omega
    have e3 : 3 * ((r1 : Nat) / 3) + (r2 : Nat) % 3 = (r2 : Nat) := by omega
    have e4 : 3 * ((c1 : Nat) / 3) + (c2 : Nat) % 3 = (c2 : Nat) := by omega
    have hner : ¬((r1 : Nat) % 3 = (r2 : Nat) % 3 ∧ (c1 : Nat) % 3 = (c2 : Nat) % 3) := by
      intro ⟨hh1, hh2⟩
      refine hne ⟨Fin.ext (by omega), Fin.ext (by omega)⟩
    have := hbox ((r1 : Nat) / 3) (by omega) ((c1 : Nat) / 3) (by omega)
      ((r1 : Nat) % 3) (by omega) ((c1 : Nat) % 3) (by omega)
      ((r2 : Nat) % 3) (by omega) ((c2 : Nat) % 3) (by omega) hner
    rw [e1, e2, e3, e4] at this
    exact this (by have := (hbnd r1 c1).1; omega) (hinj r1 c1 r2 c2 he)
  · intro r c _
    exact hfv r c

theorem solution_eq_of_complete (g : Grid) (hvals : valsLe9 g)
    (hcomp : find_empty g = none) (f : GridFun) (hf : isSolutionOf f g) :
    f = gridFun g := by
  have hbnd := complete_cell_bounds g hvals hcomp
  funext r c
  have h1 := hf.2 r c (by have := (hbnd r c).1; omega)
  have h2 := gridFun_fVal g r c (hbnd r c).1 (hbnd r c).2
  unfold fVal at h1 h2
  exact Fin.ext (by omega)

theorem SolutionSet_complete (g : Grid) (hvals : valsLe9 g)
    (hrows : rowsOk g) (hcols : colsOk g) (hbox : boxesOk g)
    (hcomp : find_empty g = none) : SolutionSet g = {gridFun g} := by
  ext f
  rw [mem_SolutionSet, Finset.mem_singleton]
  constructor
  · exact solution_eq_of_complete g hvals hcomp f
  · intro he
    rw [he]
    exact gridFun_isSolution g hvals hrows hcols hbox hcomp

theorem isSolutionOf_setCell_iff (g : Grid) (r c w : Nat) (hwf : wfGrid g)
    (hr : r < 9) (hc : c < 9) (h0 : getCell g r c = 0)
    (hw1 : 1 ≤ w) (hw9 : w ≤ 9) (f : GridFun) :
    isSolutionOf f (setCell g r c w) ↔
      isSolutionOf f g ∧ fVal f ⟨r, hr⟩ ⟨c, hc⟩ = w := by
  have hlen : r < g.length := by
    obtain ⟨h1, _⟩ := hwf
    omega
  have hclen : c < (g.getD r []).length := by
    rw [wf_row_length g r hwf hr]
    omega
  have hcc := getCell_setCell_cases g r c w
  constructor
  · rintro ⟨hcf, hagree⟩
    have hrc : getCell (setCell g r c w) r c = w := by
      rw [hcc r c hlen hclen, if_pos ⟨rfl, rfl⟩]
    refine ⟨⟨hcf, ?_⟩, ?_⟩
    · intro r2 c2 hnz
      have hne : ¬((r2 : Nat) = r ∧ (c2 : Nat) = c) := by
        intro ⟨e1, e2⟩
        rw [e1, e2] at hnz
        exact hnz h0
      have := hagree r2 c2 (by
        rw [hcc (r2 : Nat) (c2 : Nat) hlen hclen, if_neg hne]
        exact hnz)
      rwa [hcc (r2 : Nat) (c2 : Nat) hlen hclen, if_neg hne] at this
    · have := hagree ⟨r, hr⟩ ⟨c, hc⟩ (by
        simp only []
        rw [hrc]
        omega)
      simpa [hrc] using this
  · rintro ⟨⟨hcf, hagree⟩, hfv⟩
    refine ⟨hcf, ?_⟩
    intro r2 c2 hnz
    rw [hcc (r2 : Nat) (c2 : Nat) hlen hclen] at hnz ⊢
    by_cases he : (r2 : Nat) = r ∧ (c2 : Nat) = c
    · rw [if_pos he] at hnz ⊢
      have e1 : r2 = ⟨r, hr⟩ := Fin.ext he.1
      have e2 : c2 = ⟨c, hc⟩ := Fin.ext he.2
      rw [e1, e2]
      exact hfv
    · rw [if_neg he] at hnz ⊢
      exact hagree r2 c2 hnz

theorem SolutionSet_split (g : Grid) (r c : Nat) (hwf : wfGrid g)
    (hr : r < 9) (hc : c < 9) (h0 : getCell g r c = 0) :
    (SolutionSet g).card =
      ∑ v : Fin 9, (SolutionSet (setCell g r c ((v : Nat) + 1))).card := by
  have hiff := fun (v : Fin 9) (f : GridFun) =>
    isSolutionOf_setCell_iff g r c ((v : Nat) + 1) hwf hr hc h0
      (by omega) (by have := v.isLt; omega) f
  have hbU : SolutionSet g =
      Finset.univ.biUnion
        (fun v : Fin 9 => SolutionSet (setCell g r c ((v : Nat) + 1))) := by
    ext f
    rw [mem_SolutionSet]
    simp only [Finset.mem_biUnion, Finset.mem_univ, true_and]
    constructor
    · intro hf
      refine ⟨f ⟨r, hr⟩ ⟨c, hc⟩, ?_⟩
      rw [mem_SolutionSet, hiff]
      exact ⟨hf, rfl⟩
    · rintro ⟨v, hv⟩
      rw [mem_SolutionSet, hiff] at hv
      exact hv.1
  rw [hbU, Finset.card_biUnion]
  intro v1 _ v2 _ hne
  rw [Finset.disjoint_left]
  intro f h1 h2
  rw [mem_SolutionSet, hiff] at h1 h2
  refine hne (Fin.ext ?_)
  have e1 := h1.2
  have e2 := h2.2
  omega

theorem SolutionSet_invalid_empty (g : Grid) (r c w : Nat) (hwf : wfGrid g)
    (hr : r < 9) (hc : c < 9) (h0 : getCell g r c = 0)
    (hw1 : 1 ≤ w) (hw9 : w ≤ 9)
    (hinv : ¬(is_valid g r c w = true)) :
    SolutionSet (setCell g r c w) = ∅ := by
  rw [gen_is_valid_iff g r c w hwf hr] at hinv
  have hcases : ¬noRowHit g r w ∨ ¬noColHit g c w ∨ ¬noBoxHit g r c w := by
    tauto
  rw [Finset.eq_empty_iff_forall_not_mem]
  intro f hf
  rw [mem_SolutionSet,
    isSolutionOf_setCell_iff g r c w hwf hr hc h0 hw1 hw9 f] at hf
  obtain ⟨⟨hcf, hagree⟩, hfv⟩ := hf
  have hfeq : ∀ a b a2 b2 : Fin 9, fVal f a b = fVal f a2 b2 → f a b = f a2 b2 := by
    intro a b a2 b2 he
    unfold fVal at he
    exact Fin.ext (by omega)
  rcases hcases with hrow | hcol | hbox
  · unfold noRowHit at hrow
    push_neg at hrow
    obtain ⟨c2, hc2, hval⟩ := hrow
    have hnec : c2 ≠ c := by
      intro he
      rw [he, h0] at hval
      omega
    have h2 : fVal f ⟨r, hr⟩ ⟨c2, hc2⟩ = w := by
      rw [hagree ⟨r, hr⟩ ⟨c2, hc2⟩ (by simp only []; omega)]
      exact hval
    exact hcf.1 ⟨r, hr⟩ ⟨c, hc⟩ ⟨c2, hc2⟩
      (fun he => hnec (by simpa using (Fin.val_eq_val _ _).mpr he.symm))
      (hfeq _ _ _ _ (by rw [hfv, h2]))
  · unfold noColHit at hcol
    push_neg at hcol
    obtain ⟨r2, hr2, hval⟩ := hcol
    have hner : r2 ≠ r := by
      intro he
      rw [he, h0] at hval
      omega
    have h2 : fVal f ⟨r2, hr2⟩ ⟨c, hc⟩ = w := by
      rw [hagree ⟨r2, hr2⟩ ⟨c, hc⟩ (by simp only []; omega)]
      exact hval
    exact hcf.2.1 ⟨c, hc⟩ ⟨r, hr⟩ ⟨r2, hr2⟩
      (fun he => hner (by simpa using (Fin.val_eq_val _ _).mpr he.symm))
      (hfeq _ _ _ _ (by rw [hfv, h2]))
  · unfold noBoxHit at hbox
    push_neg at hbox
    obtain ⟨i, hi, j, hj, hval⟩ := hbox
    have hri : r / 3 * 3 + i < 9 := by omega
    have hcj : c / 3 * 3 + j < 9 := by omega
    have hnep : ¬((r : Nat) = r / 3 * 3 + i ∧ (c : Nat) = c / 3 * 3 + j) := by
      intro ⟨e1, e2⟩
      rw [← e1, ← e2, h0] at hval
      omega
    have h2 : fVal f ⟨r / 3 * 3 + i, hri⟩ ⟨c / 3 * 3 + j, hcj⟩ = w := by
      rw [hagree ⟨r / 3 * 3 + i, hri⟩ ⟨c / 3 * 3 + j, hcj⟩ (by simp only []; omega)]
      exact hval
    refine hcf.2.2 ⟨r, hr⟩ ⟨c, hc⟩ ⟨r / 3 * 3 + i, hri⟩ ⟨c / 3 * 3 + j, hcj⟩
      (by simp only []; omega) (by simp only []; omega) ?_
      (hfeq _ _ _ _ (by rw [hfv, h2]))
    intro ⟨e1, e2⟩
    refine hnep ⟨?_, ?_⟩
    · simpa using (Fin.val_eq_val _ _).mpr e1
    · simpa using (Fin.val_eq_val _ _).mpr e2

theorem sum_fin9_digits (A : Nat → Nat) :
    (∑ v : Fin 9, A ((v : Nat) + 1)) = (List.map A digits).sum := by
  rw [show digits = [1, 2, 3, 4, 5, 6, 7, 8, 9] from rfl]
  simp [Fin.sum_univ_succ]

theorem countTry_exact_aux (step : Grid → Nat × Grid) (g : Grid)
    (r c limit : Nat) (hwf : wfGrid g) (h0 : getCell g r c = 0)
    (hr : r < 9) (hc : c < 9)
    (hrestore : ∀ g2, (step g2).2 = g2)
    (hstep : ∀ w, w ∈ digits → is_valid g r c w = true →
      (step (setCell g r c w)).1 < limit →
      (step (setCell g r c w)).1 = (SolutionSet (setCell g r c w)).card) :
    ∀ nums count, (∀ w ∈ nums, w ∈ digits) →
      (countTry step g r c limit count nums).1 < limit →
      (countTry step g r c limit count nums).1 =
        count + (nums.map (fun w => (SolutionSet (setCell g r c w)).card)).sum := by
  intro nums
  induction nums with
  | nil =>
    intro count _ _
    simp [countTry]
  | cons w rest ih =>
    intro count hmem hbelow
    have hwd : w ∈ digits := hmem w (List.mem_cons_self _ _)
    have hwb := (mem_digits_iff w).mp hwd
    by_cases hv : is_valid g r c w = true
    · cases hs : step (setCell g r c w) with
      | mk k g1 =>
        have h1 : g1 = setCell g r c w := by
          have := hrestore (setCell g r c w)
          rwa [hs] at this
        have hrew : setCell g1 r c 0 = g := by
          rw [h1, setCell_setCell, setCell_zero_of_zero g r c h0]
        by_cases hle : limit ≤ count + k
        · have heq : countTry step g r c limit count (w :: rest) =
              (count + k, setCell g1 r c 0) := by
            simp [countTry, hv, hs, hle]
          rw [heq] at hbelow
          simp only [] at hbelow
          omega
        · have heq : countTry step g r c limit count (w :: rest) =
              countTry step (setCell g1 r c 0) r c limit (count + k) rest := by
            simp [countTry, hv, hs, hle]
          rw [heq, hrew] at hbelow ⊢
          have hk : k = (SolutionSet (setCell g r c w)).card := by
            have := hstep w hwd hv
            rw [hs] at this
            exact this (by omega)
          rw [ih (count + k) (fun w2 h2 => hmem w2 (List.mem_cons_of_mem _ h2))
            hbelow]
          simp only [List.map_cons, List.sum_cons]
          omega
    · have hempty : SolutionSet (setCell g r c w) = ∅ :=
        SolutionSet_invalid_empty g r c w hwf hr hc h0 hwb.1 hwb.2 hv
      have heq : countTry step g r c limit count (w :: rest) =
          countTry step g r c limit count rest := by
        simp [countTry, hv]
      rw [heq] at hbelow ⊢
      rw [ih count (fun w2 h2 => hmem w2 (List.mem_cons_of_mem _ h2)) hbelow]
      simp [hempty]

theorem count_solutions_exact :
    ∀ fuel g limit, wfGrid g → valsLe9 g → check_partial_ok g = true →
      countZeros g < fuel →
      (count_solutions fuel g limit).1 < limit →
      (count_solutions fuel g limit).1 = (SolutionSet g).card := by
  intro fuel
  induction fuel with
  | zero =>
    intro g limit _ _ _ hfuel _
    omega
  | succ n ih =>
    intro g limit hwf hvals hok hfuel hbelow
    obtain ⟨hrows, hcols, hbox⟩ := (check_partial_ok_iff g).mp hok
    cases hfe : find_empty g with
    | none =>
      rw [count_complete g hfe n limit] at hbelow ⊢
      simp only []
      rw [SolutionSet_complete g hvals hrows hcols hbox hfe,
        Finset.card_singleton]
    | some rc =>
      obtain ⟨r, c⟩ := rc
      obtain ⟨hr, hc, h0⟩ := find_empty_eq_some g r c hfe
      have heq : count_solutions (n + 1) g limit =
          countTry (fun g2 => count_solutions n g2 limit) g r c limit 0 digits := by
        simp [count_solutions, hfe]
      rw [heq] at hbelow ⊢
      have hstep : ∀ w, w ∈ digits → is_valid g r c w = true →
          (count_solutions n (setCell g r c w) limit).1 < limit →
          (count_solutions n (setCell g r c w) limit).1 =
            (SolutionSet (setCell g r c w)).card := by
        intro w hwd hv hlt
        have hwb := (mem_digits_iff w).mp hwd
        have hinv2 : GridInv (setCell g r c w) :=
          GridInv_place g r c w ⟨hwf, hvals, hrows, hcols, hbox⟩ hr hc h0 hv hwb.2
        obtain ⟨hwf2, hvals2, hrows2, hcols2, hbox2⟩ := hinv2
        have hcz : countZeros (setCell g r c w) + 1 = countZeros g :=
          countZeros_setCell g r c w hwf hr hc h0 (by omega)
        exact ih (setCell g r c w) limit hwf2 hvals2
          ((check_partial_ok_iff _).mpr ⟨hrows2, hcols2, hbox2⟩)
          (by omega) hlt
      rw [countTry_exact_aux (fun g2 => count_solutions n g2 limit) g r c limit
        hwf h0 hr hc (fun g2 => count_restore n g2 limit) hstep digits 0
        (fun w hw => hw) hbelow]
      have hbridge := sum_fin9_digits (fun w => (SolutionSet (setCell g r c w)).card)
      simp only [] at hbridge
      rw [SolutionSet_split g r c hwf hr hc h0, ← hbridge]
      simp

/-! ### Claim C2 -/

/-- C2: for every well-formed grid over values 0..9 whose non-zero cells
are conflict-free, every limit ≥ 1 and any sufficient recursion budget, if
count_solutions returns a value strictly below limit then that value is the
exact number of complete conflict-free grids that agree with the input on
its non-zero cells. -/
theorem count_solutions_exact_below_limit (g : Grid) (limit fuel : Nat)
    (hwf : wfGrid g) (hvals : valsLe9 g)
    (hconf : check_partial_ok g = true) (hl : 1 ≤ limit)
    (hfuel : countZeros g < fuel)
    (hbelow : (count_solutions fuel g limit).1 < limit) :
    (count_solutions fuel g limit).1 = (SolutionSet g).card :=
  count_solutions_exact fuel g limit hwf hvals hconf hfuel hbelow

/-- Witness for C2: the 8-hole puzzle has exactly 4 solutions, and with
limit 100 the counter finds all of them. -/
theorem count_solutions_exact_below_limit_witness :
    wfGrid puzzle3Grid ∧ valsLe9 puzzle3Grid ∧
    check_partial_ok puzzle3Grid = true ∧ 1 ≤ 100 ∧
    countZeros puzzle3Grid < 82 ∧
    (count_solutions 82 puzzle3Grid 100).1 < 100 ∧
    (count_solutions 82 puzzle3Grid 100).1 = (SolutionSet puzzle3Grid).card :=
  ⟨by decide, by decide, by decide, by decide, by decide, by decide,
   count_solutions_exact_below_limit puzzle3Grid 100 82 (by decide) (by decide)
     (by decide) (by decide) (by decide) (by decide)⟩

/-! ### Claim C10 -/

theorem list_sum_le (l : List Nat) (n : Nat) (h : ∀ x ∈ l, x ≤ n) :
    l.sum ≤ l.length * n := by
  induction l with
  | nil => simp
  | cons a t ih =>
    simp only [List.sum_cons, List.length_cons]
    have h1 := h a (List.mem_cons_self _ _)
    have h2 := ih (fun x hx => h x (List.mem_cons_of_mem _ hx))
    calc a + t.sum ≤ n + t.length * n := by omega
      _ = (t.length + 1) * n := by ring

theorem countZeros_le_81 (g : Grid) (hwf : wfGrid g) : countZeros g ≤ 81 := by
  unfold countZeros
  obtain ⟨h1, h2⟩ := hwf
  have := list_sum_le (List.map (fun row => List.countP (fun v => v == 0) row) g) 9 (by
    intro x hx
    rw [List.mem_map] at hx
    obtain ⟨row, hrow, he⟩ := hx
    rw [← he]
    calc List.countP (fun v => v == 0) row ≤ row.length := List.countP_le_length _
      _ = 9 := h2 row hrow)
  rw [List.length_map, h1] at this
  omega

theorem ok_of_subgrid (p full : Grid)
    (hsub : ∀ r c, getCell p r c = 0 ∨ getCell p r c = getCell full r c)
    (hrows : rowsOk full) (hcols : colsOk full) (hbox : boxesOk full) :
    rowsOk p ∧ colsOk p ∧ boxesOk p := by
  refine ⟨?_, ?_, ?_⟩
  · intro r hr c1 h1 c2 h2 hne hnz
    rcases hsub r c1 with hz | he1
    · exact absurd hz hnz
    rcases hsub r c2 with hz2 | he2
    · rw [hz2]
      exact hnz
    rw [he1, he2]
    exact hrows r hr c1 h1 c2 h2 hne (by rw [← he1]; exact hnz)
  · intro c hc r1 h1 r2 h2 hne hnz
    rcases hsub r1 c with hz | he1
    · exact absurd hz hnz
    rcases hsub r2 c with hz2 | he2
    · rw [hz2]
      exact hnz
    rw [he1, he2]
    exact hcols c hc r1 h1 r2 h2 hne (by rw [← he1]; exact hnz)
  · intro br hbr bc hbc i1 hi1 j1 hj1 i2 hi2 j2 hj2 hne hnz
    rcases hsub (3 * br + i1) (3 * bc + j1) with hz | he1
    · exact absurd hz hnz
    rcases hsub (3 * br + i2) (3 * bc + j2) with hz2 | he2
    · rw [hz2]
      exact hnz
    rw [he1, he2]
    exact hbox br hbr bc hbc i1 hi1 j1 hj1 i2 hi2 j2 hj2 hne
      (by rw [← he1]; exact hnz)

/-- C10: the puzzle returned by generate only blanks cells of the full
solution built in step 1, never rewrites a digit: every cell of the puzzle
is 0 or equal to the corresponding cell of the full grid; consequently the
puzzle's solution set is exactly the singleton of that full grid. -/
theorem generate_blanks_only_and_solution_is_full_grid
    (order : Grid → List Nat) (horder : ∀ g2 v, v ∈ order g2 → v ∈ digits)
    (cells : List (Nat × Nat)) (rate : ℚ) (puzzle : Grid)
    (hgen : generate order cells rate = some puzzle) :
    ∃ full, fill_grid_backtracking order 82 zeroGrid = (true, full) ∧
      (∀ r c, getCell puzzle r c = 0 ∨ getCell puzzle r c = getCell full r c) ∧
      SolutionSet puzzle = {gridFun full} := by
  unfold generate at hgen
  cases hres : fill_grid_backtracking order 82 zeroGrid with
  | mk b full =>
    rw [hres] at hgen
    cases b with
    | false => simp at hgen
    | true =>
      simp only [Option.some.injEq] at hgen
      refine ⟨full, rfl, ?_⟩
      have hzero : GridInv zeroGrid := by decide
      have hfillinv := fill_inv order horder 82 zeroGrid hzero
      rw [hres] at hfillinv
      obtain ⟨⟨hwfF, hvalsF, hrowsF, hcolsF, hboxF⟩, hcompF⟩ := hfillinv
      have hcomp : find_empty full = none := hcompF rfl
      have hsub : ∀ r c, getCell puzzle r c = 0 ∨
          getCell puzzle r c = getCell full r c := by
        rw [← hgen]
        exact digLoop_blanks_only full cells _ 0 full (fun r c => Or.inr rfl)
      refine ⟨hsub, ?_⟩
      have hwfP : wfGrid puzzle := by
        rw [← hgen]
        exact digLoop_wf cells _ 0 full hwfF
      have hvalsP : valsLe9 puzzle := by
        intro r hr c hc
        rcases hsub r c with hz | he
        · omega
        · rw [he]
          exact hvalsF r hr c hc
      obtain ⟨hrowsP, hcolsP, hboxP⟩ :=
        ok_of_subgrid puzzle full hsub hrowsF hcolsF hboxF
      have hcount : (count_solutions 82 puzzle 2).1 = 1 := by
        rw [← hgen]
        refine digLoop_count_one cells _ 0 full ?_
        rw [show (82 : Nat) = 81 + 1 from rfl, count_complete full hcomp 81 2]
      have hcard : (SolutionSet puzzle).card = 1 := by
        have := count_solutions_exact 82 puzzle 2 hwfP hvalsP
          ((check_partial_ok_iff _).mpr ⟨hrowsP, hcolsP, hboxP⟩)
          (by have := countZeros_le_81 puzzle hwfP; omega)
          (by rw [hcount]; omega)
        rw [hcount] at this
        omega
      have hmem : gridFun full ∈ SolutionSet puzzle := by
        rw [mem_SolutionSet]
        refine ⟨(gridFun_isSolution full hvalsF hrowsF hcolsF hboxF hcomp).1, ?_⟩
        intro r c hnz
        rcases hsub (r : Nat) (c : Nat) with hz | he
        · exact absurd hz hnz
        · rw [he]
          have hbnd := complete_cell_bounds full hvalsF hcomp r c
          rw [gridFun_fVal full r c hbnd.1 hbnd.2]
      obtain ⟨a, ha⟩ := Finset.card_eq_one.mp hcard
      rw [ha] at hmem ⊢
      rw [Finset.mem_singleton] at hmem
      rw [hmem]

/-- Witness for C10 at a concrete one-cell removal. -/
theorem generate_blanks_only_and_solution_is_full_grid_witness :
    generate (solOrder cyclicGrid) allCells (1 / 81) =
      some (setCell cyclicGrid 0 0 0) ∧
    (∃ full, fill_grid_backtracking (solOrder cyclicGrid) 82 zeroGrid =
        (true, full) ∧
      (∀ r c, getCell (setCell cyclicGrid 0 0 0) r c = 0 ∨
        getCell (setCell cyclicGrid 0 0 0) r c = getCell full r c) ∧
      SolutionSet (setCell cyclicGrid 0 0 0) = {gridFun full}) :=
  ⟨generate_eval_inv,
   generate_blanks_only_and_solution_is_full_grid (solOrder cyclicGrid)
     (solOrder_mem cyclicGrid cyclicGrid_cells_digits) allCells (1 / 81)
     (setCell cyclicGrid 0 0 0) generate_eval_inv⟩
